import Mathlib

set_option maxHeartbeats 1000000
set_option maxRecDepth 4096

/-!
Shallow embedding of the adjacency-graph builder in
`src/build_delhi_adjacency.py` (the active script, lines 92-211), together
with models of its geometry-library collaborators.  Geometry operations
(`to_crs`, `buffer(0)`, `.length`, `.intersection(...).length`, the spatial
index query with `predicate="touches"`) are performed by GEOS/pyproj in the
source, so they are abstracted into a record of functions `GeoOps`; lengths
and ratios are modelled by rationals standing in for IEEE floats.
-/

/-- Value held by an attribute column cell of the dataframe (`pd.NA`,
an integer, or a string). -/
inductive PyVal where
  | na
  | int (i : ℤ)
  | str (s : String)
deriving DecidableEq

/-- Model of `pd.isna` on a cell. -/
def PyVal.isna : PyVal → Bool
  | .na => true
  | _ => false

/-- Model of Python `int(v)` on a cell value; `none` models the raised
`ValueError`/`TypeError`. -/
def pyInt : PyVal → Option ℤ
  | .na => none
  | .int i => some i
  | .str s => s.toInt?

/-- Model of Python `str(v)` on a cell value. -/
def pyStr : PyVal → String
  | .na => "<NA>"
  | .int i => toString i
  | .str s => s

/-- One record of the polygon dataset: the `ST_CODE` cell viewed through
`astype(str)`, the `AC_NO` and `AC_NAME` cells, the remaining attribute
columns, and the record's geometry. -/
structure Row (G : Type) where
  st_code : String
  ac_no : ℤ
  ac_name : String
  attrs : List (String × PyVal)
  geom : G
deriving DecidableEq

/-- The loaded dataframe `gdf`: its column names and its records. -/
structure Dataset (G : Type) where
  cols : List String
  rows : List (Row G)
deriving DecidableEq

/-- The geometry-library collaborators of the script.  `toCrs` models
`to_crs(32644)` on one geometry, `buffer0` models `buffer(0)`, `len` models
`.length`, `touches` models the predicate applied by
`sindex.query(geom, predicate="touches")`, and `ilen` models
`a.intersection(b).length`.  `none` models a raised exception. -/
structure GeoOps (G : Type) where
  toCrs : G → Option G
  buffer0 : G → Option G
  len : G → ℚ
  touches : G → G → Bool
  ilen : G → G → ℚ

/-- Whether the character list `pat` occurs as a contiguous sublist of `s`
(model of Python's `in` on strings). -/
def listInfixOf (pat : List Char) : List Char → Bool
  | [] => pat.isEmpty
  | c :: rest => pat.isPrefixOf (c :: rest) || listInfixOf pat rest

/-- Model of Python `pat in s` for strings. -/
def strContains (s pat : String) : Bool :=
  listInfixOf pat.toList s.toList

/-- Model of Python `c.upper()`: uppercase every character. -/
def upperStr (s : String) : String :=
  ⟨s.toList.map Char.toUpper⟩

/-- `find_col` from the script: return the first column whose upper-cased
name contains every needle, else `None`. -/
def find_col (cols : List String) (needles : List String) : Option String :=
  match cols with
  | [] => none
  | c :: rest =>
    if needles.all (fun nd => strContains (upperStr c) nd) then some c
    else find_col rest needles

/-- `find_col(sub.columns, "DIST", "COD") or find_col(sub.columns, "DIST", "NO")`:
the district-code column resolver.  `find_col` never returns an empty column
name (the name must contain `"DIST"`), so Python's truthiness test on the
first result coincides with `Option.orElse`. -/
def dcodeCol (cols : List String) : Option String :=
  (find_col cols ["DIST", "COD"]).orElse (fun _ => find_col cols ["DIST", "NO"])

/-- `find_col(sub.columns, "DIST", "NAME")`: the district-name column resolver. -/
def dnameCol (cols : List String) : Option String :=
  find_col cols ["DIST", "NAME"]

/-- Model of `s.lstrip("0")`: drop every leading `'0'` character. -/
def lstrip0 (s : String) : String :=
  ⟨s.toList.dropWhile (fun c => c == '0')⟩

/-- The row-selection test `gdf["ST_CODE"].astype(str).str.lstrip("0") == str(code)`. -/
def matchesCode (s : String) (code : ℕ) : Bool :=
  lstrip0 s == Nat.repr code

/-- The state-subset filter `gdf[gdf["ST_CODE"].astype(str).str.lstrip("0") == str(code)]`. -/
def selectState {G : Type} (rows : List (Row G)) (code : ℕ) : List (Row G) :=
  rows.filter (fun r => matchesCode r.st_code code)

/-- Comparison key of `sub.sort_values("AC_NO")`. -/
def rowLE {G : Type} (a b : Row G) : Prop := a.ac_no ≤ b.ac_no

instance {G : Type} : DecidableRel (@rowLE G) :=
  fun a b => inferInstanceAs (Decidable (a.ac_no ≤ b.ac_no))

instance {G : Type} : IsTotal (Row G) rowLE :=
  ⟨fun a b => Int.le_total a.ac_no b.ac_no⟩

instance {G : Type} : IsTrans (Row G) rowLE :=
  ⟨fun _ _ _ h1 h2 => le_trans h1 h2⟩

/-- `sub.sort_values("AC_NO", inplace=True)` followed by
`reset_index(drop=True)`: the records sorted ascending by `AC_NO` and
re-indexed positionally. -/
def sortRows {G : Type} (rows : List (Row G)) : List (Row G) :=
  List.insertionSort rowLE rows

/-- The per-group working subset `sub`: the state's records sorted by `AC_NO`. -/
def groupSub {G : Type} (ds : Dataset G) (code : ℕ) : List (Row G) :=
  sortRows (selectState ds.rows code)

/-- Sequencing of per-row library calls: `none` as soon as one call raises. -/
def optMapM {α β : Type} (f : α → Option β) : List α → Option (List β)
  | [] => some []
  | a :: rest =>
    match f a, optMapM f rest with
    | some b, some bs => some (b :: bs)
    | _, _ => none

/-- `sp = sub.to_crs(32644)` followed by `sp["geometry"] = sp.geometry.buffer(0)`:
reproject every geometry, then repair every reprojected geometry.  A raise
anywhere aborts the whole frame operation. -/
def prepGeoms {G : Type} (ops : GeoOps G) (rows : List (Row G)) : Option (List G) :=
  match optMapM (fun r => ops.toCrs r.geom) rows with
  | none => none
  | some gs => optMapM ops.buffer0 gs

/-- The per-unit working data of the adjacency loop: the prepared geometry,
its perimeter `sp["perim"] = sp.geometry.length`, and its `AC_NO`. -/
def mkUnits {G : Type} (ops : GeoOps G) (gs : List G) (rows : List (Row G)) :
    List (G × ℚ × ℤ) :=
  (List.zip gs rows).map (fun p => (p.1, ops.len p.1, p.2.ac_no))

/-- The prepared units of one group, `none` when geometry preparation raised. -/
def groupUnits {G : Type} (ops : GeoOps G) (ds : Dataset G) (code : ℕ) :
    Option (List (G × ℚ × ℤ)) :=
  match prepGeoms ops (groupSub ds code) with
  | none => none
  | some gs => some (mkUnits ops gs (groupSub ds code))

/-- One recorded adjacency edge `{"id": ac_j, "shared_perim": float(shared / per_i)}`. -/
structure Entry where
  id : ℤ
  shared_perim : ℚ
deriving DecidableEq

/-- One emitted node record. -/
structure Node where
  id : ℤ
  ac_no : ℤ
  name : String
  district_id : Option ℤ
  district : Option String
deriving DecidableEq

/-- The emitted artifact `{"nodes": nodes, "adjacency": adjacency}`. -/
structure Graph where
  nodes : List Node
  adjacency : List (List Entry)
deriving DecidableEq

/-- Pair every element with its positional index, starting at `i`. -/
def withIdx {α : Type} : ℕ → List α → List (ℕ × α)
  | _, [] => []
  | i, a :: rest => (i, a) :: withIdx (i + 1) rest

/-- Python list-index resolution for `adjacency[i]` on a list of length `n`:
indices in `[0, n)` are used directly, indices in `[-n, 0)` wrap around, and
anything else raises `IndexError` (`none`). -/
def pySlot (n : ℕ) (i : ℤ) : Option ℕ :=
  if 0 ≤ i ∧ i < (n : ℤ) then some i.toNat
  else if 0 ≤ i + (n : ℤ) ∧ i + (n : ℤ) < (n : ℤ) then some (i + (n : ℤ)).toNat
  else none

/-- `adjacency[k].append(e)`. -/
def appendAt (adj : List (List Entry)) (k : ℕ) (e : Entry) : List (List Entry) :=
  adj.set k (adj.getD k [] ++ [e])

/-- The inner loop `for j in sindex.query(geom_i, predicate="touches")`:
iterate over the indexed units, keep those touching `geom_i`, skip `idx == j`,
and for strictly positive intersection length append
`{"id": ac_j, "shared_perim": shared / per_i}` at slot `ac_i - 1`. -/
def innerLoop {G : Type} (ops : GeoOps G) (n : ℕ) (idx : ℕ) (gi : G) (peri : ℚ)
    (ai : ℤ) : List (ℕ × (G × ℚ × ℤ)) → List (List Entry) →
    Except String (List (List Entry))
  | [], adj => .ok adj
  | (j, u) :: rest, adj =>
    if ops.touches gi u.1 then
      if idx = j then innerLoop ops n idx gi peri ai rest adj
      else if 0 < ops.ilen gi u.1 then
        match pySlot n (ai - 1) with
        | some k =>
          innerLoop ops n idx gi peri ai rest
            (appendAt adj k ⟨u.2.2, ops.ilen gi u.1 / peri⟩)
        | none => .error "IndexError"
      else innerLoop ops n idx gi peri ai rest adj
    else innerLoop ops n idx gi peri ai rest adj

/-- The outer loop `for idx in tqdm(range(n))`. -/
def outerLoop {G : Type} (ops : GeoOps G) (n : ℕ) (units : List (ℕ × (G × ℚ × ℤ))) :
    List (ℕ × (G × ℚ × ℤ)) → List (List Entry) → Except String (List (List Entry))
  | [], adj => .ok adj
  | (idx, u) :: rest, adj =>
    match innerLoop ops n idx u.1 u.2.1 u.2.2 units adj with
    | .ok adj2 => outerLoop ops n units rest adj2
    | .error e => .error e

/-- `adjacency = [[] for _ in range(n)]` followed by the double loop. -/
def buildAdjacency {G : Type} (ops : GeoOps G) (units : List (G × ℚ × ℤ)) :
    Except String (List (List Entry)) :=
  outerLoop ops units.length (withIdx 0 units) (withIdx 0 units)
    (List.replicate units.length [])

/-- Value of a resolved attribute column on one record
(`sub["district_id"] = sub[dcode_col] if dcode_col else pd.NA`). -/
def getAttr {G : Type} (r : Row G) (c : Option String) : PyVal :=
  match c with
  | none => .na
  | some cn =>
    match r.attrs.lookup cn with
    | some v => v
    | none => .na

/-- One node record of the emitted `nodes` list. -/
def mkNode {G : Type} (dc dn : Option String) (r : Row G) : Except String Node :=
  match (if (getAttr r dc).isna then some none else (pyInt (getAttr r dc)).map some) with
  | none => .error "ValueError"
  | some di =>
    .ok { id := r.ac_no, ac_no := r.ac_no, name := r.ac_name,
          district_id := di,
          district :=
            if (getAttr r dn).isna then none else some (pyStr (getAttr r dn)) }

/-- Sequencing of per-row node construction; an exception aborts the run. -/
def exMapM {α β : Type} (f : α → Except String β) : List α → Except String (List β)
  | [] => .ok []
  | a :: rest =>
    match f a with
    | .error e => .error e
    | .ok b =>
      match exMapM f rest with
      | .error e => .error e
      | .ok bs => .ok (b :: bs)

instance {ε α : Type} [DecidableEq ε] [DecidableEq α] : DecidableEq (Except ε α) :=
  fun a b =>
    match a, b with
    | .ok x, .ok y =>
      if h : x = y then .isTrue (by rw [h]) else .isFalse (by intro hc; cases hc; exact h rfl)
    | .error x, .error y =>
      if h : x = y then .isTrue (by rw [h]) else .isFalse (by intro hc; cases hc; exact h rfl)
    | .ok _, .error _ => .isFalse (by intro hc; cases hc)
    | .error _, .ok _ => .isFalse (by intro hc; cases hc)

/-- The error message modelling an uncaught geometry exception. -/
def geomFailMsg : String := "geometry reprojection or repair failed"

/-- One iteration of `for state, code in STATES.items()`: select and sort the
state's records (`.ok none` models `continue` on an empty subset), resolve the
district columns, prepare geometry, build the adjacency lists, build the node
records, and return the emitted graph.  `.error` models an uncaught exception
aborting the group's run. -/
def processState {G : Type} (ops : GeoOps G) (ds : Dataset G) (code : ℕ) :
    Except String (Option Graph) :=
  if (selectState ds.rows code).isEmpty then .ok none
  else
    match prepGeoms ops (groupSub ds code) with
    | none => .error geomFailMsg
    | some gs =>
      match buildAdjacency ops (mkUnits ops gs (groupSub ds code)) with
      | .error e => .error e
      | .ok adj =>
        match exMapM (mkNode (dcodeCol ds.cols) (dnameCol ds.cols)) (groupSub ds code) with
        | .error e => .error e
        | .ok nodes => .ok (some { nodes := nodes, adjacency := adj })

/-- JSON values, the shape of `json.dumps` input. -/
inductive Jval where
  | jnull
  | jint (i : ℤ)
  | jrat (q : ℚ)
  | jstr (s : String)
  | jarr (elems : List Jval)
  | jobj (fields : List (String × Jval))

/-- The key sequence of a JSON object. -/
def jkeys : Jval → List String
  | .jobj fields => fields.map Prod.fst
  | _ => []

/-- Serialization of the nullable `district_id` attribute. -/
def optIntJson : Option ℤ → Jval
  | none => .jnull
  | some i => .jint i

/-- Serialization of the nullable `district` attribute. -/
def optStrJson : Option String → Jval
  | none => .jnull
  | some s => .jstr s

/-- The JSON object written for one node record, preserving the dict
insertion order of the script. -/
def nodeToJson (nd : Node) : Jval :=
  .jobj [("id", .jint nd.id), ("ac_no", .jint nd.ac_no), ("name", .jstr nd.name),
         ("district_id", optIntJson nd.district_id),
         ("district", optStrJson nd.district)]

/-- The JSON object written for one adjacency edge. -/
def entryToJson (e : Entry) : Jval :=
  .jobj [("id", .jint e.id), ("shared_perim", .jrat e.shared_perim)]

/-- The JSON document `out = {"nodes": nodes, "adjacency": adjacency}`. -/
def graphToJson (g : Graph) : Jval :=
  .jobj [("nodes", .jarr (g.nodes.map nodeToJson)),
         ("adjacency", .jarr (g.adjacency.map (fun l => .jarr (l.map entryToJson))))]

/-- Escaping of one character inside a JSON string literal. -/
def escChar (c : Char) : List Char :=
  if c = '"' then ['\\', '"']
  else if c = '\\' then ['\\', '\\']
  else if c = '\n' then ['\\', 'n']
  else [c]

/-- A JSON string literal. -/
def dumpStr (s : String) : String :=
  "\"" ++ ⟨(s.toList.map escChar).flatten⟩ ++ "\""

/-- Rendering of a JSON number.  The script serializes IEEE floats through
`repr`; this rational rendering is the modelling stand-in for it. -/
def dumpNum (q : ℚ) : String :=
  if q.den = 1 then toString q.num else toString q

/-- A newline followed by `ind` spaces, the line break of `json.dumps(..., indent=2)`. -/
def nlIndent (ind : ℕ) : String :=
  "\n" ++ ⟨List.replicate ind ' '⟩

mutual

/-- Textual form of a JSON value as produced by `json.dumps(v, indent=2)`. -/
def dumpJval (ind : ℕ) : Jval → String
  | .jnull => "null"
  | .jint i => toString i
  | .jrat q => dumpNum q
  | .jstr s => dumpStr s
  | .jarr [] => "[]"
  | .jarr (e :: es) =>
    "[" ++ nlIndent (ind + 2) ++ dumpArr (ind + 2) (e :: es) ++ nlIndent ind ++ "]"
  | .jobj [] => "\x7b\x7d"
  | .jobj (f :: fs) =>
    "\x7b" ++ nlIndent (ind + 2) ++ dumpObj (ind + 2) (f :: fs) ++ nlIndent ind ++ "\x7d"
termination_by v => sizeOf v
decreasing_by all_goals (simp_wf; try omega)

/-- The comma-and-newline separated items of a JSON array. -/
def dumpArr (ind : ℕ) : List Jval → String
  | [] => ""
  | [e] => dumpJval ind e
  | e :: e2 :: es => dumpJval ind e ++ "," ++ nlIndent ind ++ dumpArr ind (e2 :: es)
termination_by l => sizeOf l
decreasing_by all_goals (simp_wf; try omega)

/-- The comma-and-newline separated fields of a JSON object. -/
def dumpObj (ind : ℕ) : List (String × Jval) → String
  | [] => ""
  | [(k, v)] => dumpStr k ++ ": " ++ dumpJval ind v
  | (k, v) :: f2 :: fs =>
    dumpStr k ++ ": " ++ dumpJval ind v ++ "," ++ nlIndent ind ++ dumpObj ind (f2 :: fs)
termination_by l => sizeOf l
decreasing_by all_goals (simp_wf; try omega)

end

/-- `json.dumps(out, indent=2)`: the serialized artifact text. -/
def dumpGraph (g : Graph) : String :=
  dumpJval 0 (graphToJson g)

/-- `out_file.write_text(...)` when the write runs to completion: the
destination file then holds exactly the document. -/
def writeTextComplete (doc : String) : String := doc

/-- `out_file.write_text(...)` when an I/O failure interrupts the write after
`k` characters: the destination was opened with truncation (discarding its
previous content) and holds only the first `k` characters of the document. -/
def writeTextInterrupted (doc : String) (k : ℕ) : String :=
  ⟨doc.toList.take k⟩

/-- The all-or-nothing write discipline required by the spec, modelled from
the spec: after any outcome the destination holds either its previous content
or the complete document. -/
def atomicOutcome (old doc res : String) : Prop := res = old ∨ res = doc

/-- Concrete geometry model used to instantiate `GeoOps` for witnesses: a
geometry is a finite set of boundary segments of length one and a finite set
of isolated touch points; `bad` marks a geometry whose repair raises. -/
structure MGeom where
  segs : Finset ℕ
  pts : Finset ℕ
  bad : Bool
deriving DecidableEq

/-- Witness instantiation of the geometry collaborators: reprojection is the
identity, repair fails exactly on `bad` geometries, perimeter is the segment
count, two geometries touch when they share a segment or a point, and the
intersection length is the number of shared segments. -/
def mops : GeoOps MGeom where
  toCrs g := some g
  buffer0 g := if g.bad then none else some g
  len g := (g.segs.card : ℚ)
  touches a b := decide ((a.segs ∩ b.segs).Nonempty ∨ (a.pts ∩ b.pts).Nonempty)
  ilen a b := ((a.segs ∩ b.segs).card : ℚ)

/-- Column names of the witness dataset. -/
def wcols : List String :=
  ["ST_CODE", "ST_NAME", "AC_NO", "AC_NAME", "DIST_CODE", "DIST_NAME"]

/-- Witness geometry of unit 1: one boundary segment, shared with unit 2. -/
def wgeom1 : MGeom := ⟨{1}, ∅, false⟩

/-- Witness geometry of unit 2: shares segment 1 with unit 1 and segment 2
with unit 3. -/
def wgeom2 : MGeom := ⟨{1, 2}, ∅, false⟩

/-- Witness geometry of unit 3: one boundary segment, shared with unit 2. -/
def wgeom3 : MGeom := ⟨{2}, ∅, false⟩

/-- A witness record with zero-padded state code `"007"`. -/
def wrow (ac : ℤ) (nm : String) (g : MGeom) : Row MGeom :=
  { st_code := "007", ac_no := ac, ac_name := nm,
    attrs := [("DIST_CODE", .int 9), ("DIST_NAME", .str "CENTRAL")], geom := g }

/-- Witness dataset: three units listed out of `AC_NO` order. -/
def wds : Dataset MGeom :=
  { cols := wcols, rows := [wrow 2 "B" wgeom2, wrow 1 "A" wgeom1, wrow 3 "C" wgeom3] }

/-- The graph the script emits for `wds` and state code 7. -/
def wgraph : Graph :=
  { nodes :=
      [ { id := 1, ac_no := 1, name := "A", district_id := some 9, district := some "CENTRAL" },
        { id := 2, ac_no := 2, name := "B", district_id := some 9, district := some "CENTRAL" },
        { id := 3, ac_no := 3, name := "C", district_id := some 9, district := some "CENTRAL" } ],
    adjacency := [[⟨2, 1⟩], [⟨1, 1/2⟩, ⟨3, 1/2⟩], [⟨2, 1⟩]] }

/-- A record whose geometry repair raises. -/
def badRow : Row MGeom :=
  { st_code := "7", ac_no := 1, ac_name := "BAD", attrs := [], geom := ⟨∅, ∅, true⟩ }

/-- Dataset with one irreparable geometry next to a healthy record. -/
def dsBad : Dataset MGeom :=
  { cols := wcols, rows := [badRow, wrow 2 "B" wgeom2] }

/-- A mutually disjoint witness geometry. -/
def isoGeom (k : ℕ) : MGeom := ⟨{10 + k}, ∅, false⟩

/-- A record with given `AC_NO` and an isolated geometry. -/
def gapRow (ac : ℤ) (k : ℕ) : Row MGeom :=
  { st_code := "7", ac_no := ac, ac_name := "U",
    attrs := [("DIST_CODE", .int 9), ("DIST_NAME", .str "CENTRAL")], geom := isoGeom k }

/-- Dataset whose three unit numbers are 1, 2, 5: positive and distinct but
not contiguous. -/
def dsGap : Dataset MGeom :=
  { cols := wcols, rows := [gapRow 1 0, gapRow 2 1, gapRow 5 2] }

/-- The graph the script emits for `dsGap`: node ids keep the gap. -/
def gapGraph : Graph :=
  { nodes :=
      [ { id := 1, ac_no := 1, name := "U", district_id := some 9, district := some "CENTRAL" },
        { id := 2, ac_no := 2, name := "U", district_id := some 9, district := some "CENTRAL" },
        { id := 5, ac_no := 5, name := "U", district_id := some 9, district := some "CENTRAL" } ],
    adjacency := [[], [], []] }

/-- A record whose state-code attribute is the all-zero string `"0"`. -/
def rowZero : Row MGeom :=
  { st_code := "0", ac_no := 1, ac_name := "Z", attrs := [], geom := wgeom1 }

/-- The condition under which the double loop records an edge from the unit at
position `idx` to the indexed unit `ju`, and the recorded entry. -/
def entsFor {G : Type} (ops : GeoOps G) (idx : ℕ) (gi : G) (peri : ℚ) :
    List (ℕ × (G × ℚ × ℤ)) → List Entry :=
  List.filterMap (fun ju =>
    if ops.touches gi ju.2.1 && !(idx == ju.1) && decide (0 < ops.ilen gi ju.2.1)
    then some ⟨ju.2.2.2, ops.ilen gi ju.2.1 / peri⟩ else none)

/-- The adjacency entries the double loop records for the unit at position
`idx` with geometry `gi` and perimeter `peri`: one entry per indexed unit that
touches it at strictly positive intersection length, other than itself. -/
def unitEdges {G : Type} (ops : GeoOps G) (units : List (G × ℚ × ℤ)) (idx : ℕ)
    (gi : G) (peri : ℚ) : List Entry :=
  entsFor ops idx gi peri (withIdx 0 units)

/-- The resolved slot `ac_i - 1` of a unit with number `ai` ( `0` as the
irrelevant default when Python would raise `IndexError`). -/
def slotOf (n : ℕ) (ai : ℤ) : ℕ := (pySlot n (ai - 1)).getD 0

/-- `adjacency[k].extend(es)`: appending several entries at one slot. -/
def appendList (adj : List (List Entry)) (k : ℕ) (es : List Entry) : List (List Entry) :=
  adj.set k (adj.getD k [] ++ es)

/-- Decimal digit test on a character (code points 48 to 57). -/
def cdigit (c : Char) : Bool := 48 ≤ c.toNat && c.toNat ≤ 57

/-- Whether every character of the string is a decimal digit. -/
def isDigitStr (s : String) : Bool := s.toList.all cdigit

/-- Numeric value of a decimal digit character. -/
def dval (c : Char) : ℕ := c.toNat - 48

/-- Value of a decimal digit list, most significant digit first. -/
def valL (l : List Char) : ℕ := l.foldl (fun a c => 10 * a + dval c) 0

/-- The canonical integer form of a zero-padded numeric group code, the
normalization described by the specification for comparing codes such as
`"007"` and `7`. -/
def strVal (s : String) : ℕ := valL s.toList

/-- The prepared units of the witness dataset for state code 7. -/
def wunits : List (MGeom × ℚ × ℤ) := [(wgeom1, 1, 1), (wgeom2, 2, 2), (wgeom3, 1, 3)]

/-! ### Helper lemmas: slot updates -/

theorem getD_set_self (adj : List (List Entry)) (k : ℕ) (x : List Entry)
    (hk : k < adj.length) : (adj.set k x).getD k [] = x := by
  simp [List.getD_eq_getElem?_getD, List.getElem?_set_self hk]

theorem getD_set_ne (adj : List (List Entry)) (j k : ℕ) (x : List Entry)
    (hjk : j ≠ k) : (adj.set j x).getD k [] = adj.getD k [] := by
  simp [List.getD_eq_getElem?_getD, List.getElem?_set_ne hjk]

theorem set_getD_self (adj : List (List Entry)) (k : ℕ) :
    adj.set k (adj.getD k []) = adj := by
  rcases Nat.lt_or_ge k adj.length with h | h
  · apply List.ext_getElem?
    intro n
    rcases eq_or_ne k n with rfl | hne
    · simp [List.getElem?_set_self h, List.getD_eq_getElem?_getD,
        List.getElem?_eq_getElem h]
    · simp [List.getElem?_set_ne hne]
  · rw [List.set_eq_of_length_le h]

theorem appendList_nil (adj : List (List Entry)) (k : ℕ) :
    appendList adj k [] = adj := by
  unfold appendList
  rw [List.append_nil]
  exact set_getD_self adj k

theorem length_appendList (adj : List (List Entry)) (k : ℕ) (es : List Entry) :
    (appendList adj k es).length = adj.length := by
  simp [appendList]

theorem length_appendAt (adj : List (List Entry)) (k : ℕ) (e : Entry) :
    (appendAt adj k e).length = adj.length := by
  simp [appendAt]

theorem appendAt_appendList (adj : List (List Entry)) (k : ℕ) (e : Entry)
    (es : List Entry) :
    appendList (appendAt adj k e) k es = appendList adj k (e :: es) := by
  rcases Nat.lt_or_ge k adj.length with h | h
  · unfold appendList appendAt
    rw [getD_set_self adj k _ h, List.set_set]
    simp [List.append_assoc]
  · unfold appendList appendAt
    rw [List.set_eq_of_length_le h, List.set_eq_of_length_le h, List.set_eq_of_length_le h]

theorem getD_appendList_self (adj : List (List Entry)) (k : ℕ) (es : List Entry)
    (hk : k < adj.length) :
    (appendList adj k es).getD k [] = adj.getD k [] ++ es :=
  getD_set_self adj k _ hk

theorem getD_appendList_ne (adj : List (List Entry)) (j k : ℕ) (es : List Entry)
    (hjk : j ≠ k) : (appendList adj j es).getD k [] = adj.getD k [] :=
  getD_set_ne adj j k _ hjk

/-! ### Helper lemmas: indexed iteration -/

theorem withIdx_length {α : Type} : ∀ (l : List α) (i : ℕ),
    (withIdx i l).length = l.length
  | [], _ => rfl
  | _ :: rest, i => by simp [withIdx, withIdx_length rest (i + 1)]

theorem mem_withIdx {α : Type} : ∀ (l : List α) (i : ℕ) (p : ℕ × α),
    p ∈ withIdx i l → ∃ (j : ℕ) (hj : j < l.length), p = (i + j, l.get ⟨j, hj⟩)
  | [], _, _, hp => by cases hp
  | a :: rest, i, p, hp => by
    cases hp with
    | head => exact ⟨0, by simp, by simp⟩
    | tail _ htl =>
      obtain ⟨j, hj, rfl⟩ := mem_withIdx rest (i + 1) p htl
      exact ⟨j + 1, by simpa using Nat.succ_lt_succ hj, by simp [Nat.add_assoc, Nat.add_comm 1 j]⟩

theorem withIdx_get_mem {α : Type} : ∀ (l : List α) (i j : ℕ) (hj : j < l.length),
    (i + j, l.get ⟨j, hj⟩) ∈ withIdx i l
  | [], _, _, hj => by cases hj
  | a :: rest, i, 0, _ => by simp [withIdx]
  | a :: rest, i, j + 1, hj => by
    have h2 := withIdx_get_mem rest (i + 1) j (Nat.lt_of_succ_lt_succ hj)
    have hget : (a :: rest).get ⟨j + 1, hj⟩ = rest.get ⟨j, Nat.lt_of_succ_lt_succ hj⟩ := rfl
    rw [withIdx]
    refine List.mem_cons.mpr (Or.inr ?_)
    rw [hget]
    have harith : i + (j + 1) = (i + 1) + j := by omega
    rw [harith]
    exact h2

/-! ### Helper lemmas: effectful maps -/

theorem optMapM_forall2 {α β : Type} (f : α → Option β) :
    ∀ (l : List α) (ys : List β), optMapM f l = some ys →
    List.Forall₂ (fun a b => f a = some b) l ys
  | [], ys, h => by
    simp only [optMapM] at h
    cases h
    exact List.Forall₂.nil
  | a :: rest, ys, h => by
    simp only [optMapM] at h
    cases hfa : f a with
    | none => rw [hfa] at h; cases h
    | some b =>
      rw [hfa] at h
      cases hrest : optMapM f rest with
      | none => rw [hrest] at h; cases h
      | some bs =>
        rw [hrest] at h
        cases h
        exact List.Forall₂.cons hfa (optMapM_forall2 f rest bs hrest)

theorem exMapM_forall2 {α β : Type} (f : α → Except String β) :
    ∀ (l : List α) (ys : List β), exMapM f l = .ok ys →
    List.Forall₂ (fun a b => f a = .ok b) l ys
  | [], ys, h => by
    simp only [exMapM] at h
    cases h
    exact List.Forall₂.nil
  | a :: rest, ys, h => by
    simp only [exMapM] at h
    cases hfa : f a with
    | error e => rw [hfa] at h; cases h
    | ok b =>
      rw [hfa] at h
      cases hrest : exMapM f rest with
      | error e => rw [hrest] at h; cases h
      | ok bs =>
        rw [hrest] at h
        cases h
        exact List.Forall₂.cons hfa (exMapM_forall2 f rest bs hrest)

theorem forall2_map_eq {α β γ : Type} {R : α → β → Prop} (g : β → γ) (h : α → γ) :
    ∀ {l : List α} {ys : List β}, List.Forall₂ R l ys →
    (∀ a b, R a b → g b = h a) → ys.map g = l.map h := by
  intro l ys hf hgh
  induction hf with
  | nil => rfl
  | cons hab _ ih => simp [ih, hgh _ _ hab]

/-! ### Characterization of the adjacency double loop -/

theorem pySlot_inRange (n : ℕ) (a : ℤ) (h1 : 1 ≤ a) (h2 : a ≤ (n : ℤ)) :
    pySlot n (a - 1) = some (a - 1).toNat := by
  have hc : 0 ≤ a - 1 ∧ a - 1 < (n : ℤ) := by omega
  simp [pySlot, hc]

theorem slotOf_inRange (n : ℕ) (a : ℤ) (h1 : 1 ≤ a) (h2 : a ≤ (n : ℤ)) :
    slotOf n a = (a - 1).toNat := by
  simp [slotOf, pySlot_inRange n a h1 h2]

theorem innerLoop_ok {G : Type} (ops : GeoOps G) (n : ℕ) (idx : ℕ) (gi : G)
    (peri : ℚ) (ai : ℤ) (k : ℕ) (hk : pySlot n (ai - 1) = some k) :
    ∀ (js : List (ℕ × (G × ℚ × ℤ))) (adj : List (List Entry)),
    innerLoop ops n idx gi peri ai js adj
      = .ok (appendList adj k (entsFor ops idx gi peri js))
  | [], adj => by simp [innerLoop, entsFor, appendList_nil]
  | (j, u) :: rest, adj => by
    cases ht : ops.touches gi u.1 with
    | false =>
      have h1 : innerLoop ops n idx gi peri ai ((j, u) :: rest) adj
          = innerLoop ops n idx gi peri ai rest adj := by
        simp [innerLoop, ht]
      have h2 : entsFor ops idx gi peri ((j, u) :: rest) = entsFor ops idx gi peri rest := by
        simp [entsFor, List.filterMap_cons, ht]
      rw [h1, h2]
      exact innerLoop_ok ops n idx gi peri ai k hk rest adj
    | true =>
      by_cases hij : idx = j
      · have h1 : innerLoop ops n idx gi peri ai ((j, u) :: rest) adj
            = innerLoop ops n idx gi peri ai rest adj := by
          simp [innerLoop, ht, hij]
        have h2 : entsFor ops idx gi peri ((j, u) :: rest) = entsFor ops idx gi peri rest := by
          simp [entsFor, List.filterMap_cons, hij]
        rw [h1, h2]
        exact innerLoop_ok ops n idx gi peri ai k hk rest adj
      · by_cases hil : 0 < ops.ilen gi u.1
        · have h1 : innerLoop ops n idx gi peri ai ((j, u) :: rest) adj
              = innerLoop ops n idx gi peri ai rest
                  (appendAt adj k ⟨u.2.2, ops.ilen gi u.1 / peri⟩) := by
            simp [innerLoop, ht, hij, hil, hk]
          have h2 : entsFor ops idx gi peri ((j, u) :: rest)
              = ⟨u.2.2, ops.ilen gi u.1 / peri⟩ :: entsFor ops idx gi peri rest := by
            simp [entsFor, List.filterMap_cons, ht, hij, hil]
          rw [h1, h2, innerLoop_ok ops n idx gi peri ai k hk rest _, appendAt_appendList]
        · have h1 : innerLoop ops n idx gi peri ai ((j, u) :: rest) adj
              = innerLoop ops n idx gi peri ai rest adj := by
            simp [innerLoop, ht, hij, hil]
          have h2 : entsFor ops idx gi peri ((j, u) :: rest) = entsFor ops idx gi peri rest := by
            simp [entsFor, List.filterMap_cons, hil]
          rw [h1, h2]
          exact innerLoop_ok ops n idx gi peri ai k hk rest adj

theorem outerLoop_ok {G : Type} (ops : GeoOps G) (n : ℕ)
    (units : List (ℕ × (G × ℚ × ℤ))) :
    ∀ (rows : List (ℕ × (G × ℚ × ℤ))) (adj : List (List Entry)),
    (∀ p ∈ rows, pySlot n (p.2.2.2 - 1) = some (slotOf n p.2.2.2)) →
    outerLoop ops n units rows adj
      = .ok (rows.foldl (fun a p =>
          appendList a (slotOf n p.2.2.2) (entsFor ops p.1 p.2.1 p.2.2.1 units)) adj)
  | [], adj, _ => by simp [outerLoop]
  | (idx, u) :: rest, adj, hv => by
    have hp := hv (idx, u) (List.mem_cons_self _ _)
    have hin := innerLoop_ok ops n idx u.1 u.2.1 u.2.2 (slotOf n u.2.2) hp units adj
    simp only [outerLoop, hin, List.foldl_cons]
    exact outerLoop_ok ops n units rest _
      (fun p hp2 => hv p (List.mem_cons_of_mem _ hp2))

theorem foldl_appendList_length {α : Type} (sl : α → ℕ) (ent : α → List Entry) :
    ∀ (rows : List α) (adj : List (List Entry)),
    (rows.foldl (fun a p => appendList a (sl p) (ent p)) adj).length = adj.length
  | [], _ => rfl
  | p :: rest, adj => by
    simp only [List.foldl_cons]
    rw [foldl_appendList_length sl ent rest _, length_appendList]

theorem foldl_appendList_getD {α : Type} (sl : α → ℕ) (ent : α → List Entry) :
    ∀ (rows : List α) (adj : List (List Entry)) (k : ℕ), k < adj.length →
    (rows.foldl (fun a p => appendList a (sl p) (ent p)) adj).getD k []
      = adj.getD k []
        ++ (rows.filter (fun p => sl p == k)).foldr (fun p acc => ent p ++ acc) []
  | [], adj, k, hk => by simp
  | p :: rest, adj, k, hk => by
    simp only [List.foldl_cons]
    have hlen : k < (appendList adj (sl p) (ent p)).length := by
      rw [length_appendList]; exact hk
    rw [foldl_appendList_getD sl ent rest _ k hlen]
    by_cases hsl : sl p = k
    · subst hsl
      rw [getD_appendList_self adj (sl p) (ent p) hk]
      simp [List.filter_cons, List.append_assoc]
    · rw [getD_appendList_ne adj (sl p) k (ent p) hsl]
      simp [List.filter_cons, hsl]

theorem nodup_map_get_ne {α β : Type} (f : α → β) (l : List α)
    (h : (l.map f).Nodup) (i j : ℕ) (hi : i < l.length) (hj : j < l.length)
    (hij : i ≠ j) : f (l.get ⟨i, hi⟩) ≠ f (l.get ⟨j, hj⟩) := by
  intro he
  apply hij
  have hinj2 := List.nodup_iff_injective_get.mp h
  have h1 : (l.map f).get ⟨i, by simpa using hi⟩ = (l.map f).get ⟨j, by simpa using hj⟩ := by
    rw [List.get_map, List.get_map]
    exact he
  have h2 := hinj2 h1
  simpa using h2

theorem withIdx_filter_single {α : Type} (f : ℕ × α → Bool) :
    ∀ (l : List α) (i m : ℕ) (x : α), i ≤ m → ∀ (hlt : m - i < l.length),
    l.get ⟨m - i, hlt⟩ = x →
    f (m, x) = true →
    (∀ (j : ℕ) (hj : j < l.length), i + j ≠ m → f (i + j, l.get ⟨j, hj⟩) = false) →
    (withIdx i l).filter f = [(m, x)]
  | [], _, _, _, _, hlt, _, _, _ => absurd hlt (by simp)
  | a :: rest, i, m, x, him, hlt, hget, htrue, hfalse => by
    rcases eq_or_ne i m with rfl | hne
    · have hfin : (⟨i - i, hlt⟩ : Fin (a :: rest).length) = ⟨0, by simp⟩ :=
        Fin.ext (Nat.sub_self i)
      rw [hfin] at hget
      have hxa : a = x := hget
      rw [withIdx, List.filter_cons]
      have hfa : f (i, a) = true := by rw [hxa]; exact htrue
      rw [if_pos hfa]
      have hnil : (withIdx (i + 1) rest).filter f = [] := by
        rw [List.filter_eq_nil_iff]
        intro p hp
        obtain ⟨j, hj, rfl⟩ := mem_withIdx rest (i + 1) p hp
        have hb : j + 1 < (a :: rest).length := by simp; omega
        have hf := hfalse (j + 1) hb (by omega)
        have e1 : (i + 1) + j = i + (j + 1) := by omega
        rw [e1]
        intro hcon
        have hf2 : f (i + (j + 1), rest.get ⟨j, hj⟩) = false := hf
        rw [hf2] at hcon
        cases hcon
      rw [hnil, hxa]
    · have hi_lt : i < m := lt_of_le_of_ne him hne
      rw [withIdx, List.filter_cons]
      have hfa : f (i, a) = false := by
        have h0 := hfalse 0 (by simp) (by omega)
        simpa using h0
      rw [if_neg (by rw [hfa]; simp)]
      have hlt2 : m - (i + 1) < rest.length := by
        simp at hlt
        omega
      have hb2 : (m - (i + 1)) + 1 < (a :: rest).length := by simp; omega
      have hfin : (⟨m - i, hlt⟩ : Fin (a :: rest).length) = ⟨(m - (i + 1)) + 1, hb2⟩ :=
        Fin.ext (by simp; omega)
      rw [hfin] at hget
      have hget2 : rest.get ⟨m - (i + 1), hlt2⟩ = x := hget
      exact withIdx_filter_single f rest (i + 1) m x (by omega) hlt2 hget2 htrue
        (fun j hj hne2 => by
          have hb : j + 1 < (a :: rest).length := by simp; omega
          have hf := hfalse (j + 1) hb (by omega)
          have e1 : (i + 1) + j = i + (j + 1) := by omega
          rw [e1]
          exact hf)

theorem buildAdjacency_char {G : Type} (ops : GeoOps G) (units : List (G × ℚ × ℤ))
    (adj : List (List Entry))
    (hok : buildAdjacency ops units = .ok adj)
    (hr : ∀ u ∈ units, 1 ≤ u.2.2 ∧ u.2.2 ≤ (units.length : ℤ))
    (hinj : (units.map (fun u => u.2.2)).Nodup) :
    adj.length = units.length ∧
    ∀ (m : ℕ) (hm : m < units.length),
      adj.getD ((units.get ⟨m, hm⟩).2.2 - 1).toNat []
        = unitEdges ops units m (units.get ⟨m, hm⟩).1 (units.get ⟨m, hm⟩).2.1 := by
  have hv : ∀ p ∈ withIdx 0 units,
      pySlot units.length (p.2.2.2 - 1) = some (slotOf units.length p.2.2.2) := by
    intro p hp
    obtain ⟨j, hj, rfl⟩ := mem_withIdx units 0 p hp
    have hu := hr (units.get ⟨j, hj⟩) (List.get_mem units j hj)
    rw [pySlot_inRange units.length (units.get ⟨j, hj⟩).2.2 hu.1 hu.2,
      slotOf_inRange units.length (units.get ⟨j, hj⟩).2.2 hu.1 hu.2]
  rw [buildAdjacency,
    outerLoop_ok ops units.length (withIdx 0 units) (withIdx 0 units) _ hv] at hok
  injection hok with hadj
  have hrepl : ∀ k, (List.replicate units.length ([] : List Entry)).getD k [] = [] := by
    intro k
    rw [List.getD_eq_getElem?_getD, List.getElem?_replicate]
    split <;> rfl
  constructor
  · have hlen := foldl_appendList_length
      (fun (p : ℕ × (G × ℚ × ℤ)) => slotOf units.length p.2.2.2)
      (fun (p : ℕ × (G × ℚ × ℤ)) => entsFor ops p.1 p.2.1 p.2.2.1 (withIdx 0 units))
      (withIdx 0 units) (List.replicate units.length ([] : List Entry))
    rw [← hadj]
    exact hlen.trans (by simp)
  · intro m hm
    have hu := hr (units.get ⟨m, hm⟩) (List.get_mem units m hm)
    have hk : ((units.get ⟨m, hm⟩).2.2 - 1).toNat
        < (List.replicate units.length ([] : List Entry)).length := by
      rw [List.length_replicate]
      omega
    have hgetD := foldl_appendList_getD
      (fun (p : ℕ × (G × ℚ × ℤ)) => slotOf units.length p.2.2.2)
      (fun (p : ℕ × (G × ℚ × ℤ)) => entsFor ops p.1 p.2.1 p.2.2.1 (withIdx 0 units))
      (withIdx 0 units) (List.replicate units.length ([] : List Entry))
      ((units.get ⟨m, hm⟩).2.2 - 1).toNat hk
    have hfil : (withIdx 0 units).filter
        (fun (p : ℕ × (G × ℚ × ℤ)) =>
          slotOf units.length p.2.2.2 == ((units.get ⟨m, hm⟩).2.2 - 1).toNat)
        = [(m, units.get ⟨m, hm⟩)] := by
      apply withIdx_filter_single _ units 0 m (units.get ⟨m, hm⟩) (by omega)
        (by simpa using hm) rfl
      · show (slotOf units.length (units.get ⟨m, hm⟩).2.2
            == ((units.get ⟨m, hm⟩).2.2 - 1).toNat) = true
        rw [slotOf_inRange units.length (units.get ⟨m, hm⟩).2.2 hu.1 hu.2]
        exact beq_self_eq_true _
      · intro j hj hne
        have huj := hr (units.get ⟨j, hj⟩) (List.get_mem units j hj)
        show (slotOf units.length (units.get ⟨j, hj⟩).2.2
            == ((units.get ⟨m, hm⟩).2.2 - 1).toNat) = false
        rw [slotOf_inRange units.length (units.get ⟨j, hj⟩).2.2 huj.1 huj.2]
        have hne2 : (units.get ⟨j, hj⟩).2.2 ≠ (units.get ⟨m, hm⟩).2.2 :=
          nodup_map_get_ne (fun u => u.2.2) units hinj j m hj hm (by omega)
        have hne3 : ((units.get ⟨j, hj⟩).2.2 - 1).toNat
            ≠ ((units.get ⟨m, hm⟩).2.2 - 1).toNat := by omega
        exact beq_eq_false_iff_ne.mpr hne3
    have h3 : (List.replicate units.length ([] : List Entry)).getD
          ((units.get ⟨m, hm⟩).2.2 - 1).toNat []
        ++ ((withIdx 0 units).filter
            (fun (p : ℕ × (G × ℚ × ℤ)) =>
              slotOf units.length p.2.2.2 == ((units.get ⟨m, hm⟩).2.2 - 1).toNat)).foldr
            (fun (p : ℕ × (G × ℚ × ℤ)) acc =>
              entsFor ops p.1 p.2.1 p.2.2.1 (withIdx 0 units) ++ acc) []
        = unitEdges ops units m (units.get ⟨m, hm⟩).1 (units.get ⟨m, hm⟩).2.1 := by
      rw [hrepl, List.nil_append, hfil]
      simp [unitEdges]
    rw [← hadj]
    exact hgetD.trans h3

theorem mem_unitEdges {G : Type} (ops : GeoOps G) (units : List (G × ℚ × ℤ))
    (idx : ℕ) (gi : G) (peri : ℚ) (e : Entry) :
    e ∈ unitEdges ops units idx gi peri ↔
    ∃ (j : ℕ) (hj : j < units.length),
      idx ≠ j ∧ ops.touches gi (units.get ⟨j, hj⟩).1 = true
      ∧ 0 < ops.ilen gi (units.get ⟨j, hj⟩).1
      ∧ e = ⟨(units.get ⟨j, hj⟩).2.2, ops.ilen gi (units.get ⟨j, hj⟩).1 / peri⟩ := by
  unfold unitEdges entsFor
  rw [List.mem_filterMap]
  constructor
  · rintro ⟨p, hp, hcond⟩
    obtain ⟨j, hj, rfl⟩ := mem_withIdx units 0 p hp
    split at hcond
    case isTrue hb =>
      simp only [Bool.and_eq_true, Bool.not_eq_true', beq_eq_false_iff_ne,
        decide_eq_true_eq] at hb
      injection hcond with he
      refine ⟨j, hj, ?_, hb.1.1, hb.2, he.symm⟩
      intro hcon
      exact hb.1.2 (by omega)
    case isFalse hb => cases hcond
  · rintro ⟨j, hj, hne, ht, hil, rfl⟩
    refine ⟨(j, units.get ⟨j, hj⟩), by simpa using withIdx_get_mem units 0 j hj, ?_⟩
    have hC : (ops.touches gi (units.get ⟨j, hj⟩).1
        && !(idx == j) && decide (0 < ops.ilen gi (units.get ⟨j, hj⟩).1)) = true := by
      simp only [Bool.and_eq_true, Bool.not_eq_true', beq_eq_false_iff_ne,
        decide_eq_true_eq]
      exact ⟨⟨ht, hne⟩, hil⟩
    show (if ops.touches gi (units.get ⟨j, hj⟩).1
          && !(idx == j) && decide (0 < ops.ilen gi (units.get ⟨j, hj⟩).1)
        then some (⟨(units.get ⟨j, hj⟩).2.2,
          ops.ilen gi (units.get ⟨j, hj⟩).1 / peri⟩ : Entry) else none)
      = some ⟨(units.get ⟨j, hj⟩).2.2, ops.ilen gi (units.get ⟨j, hj⟩).1 / peri⟩
    rw [if_pos hC]

/-! ### Inversion of one group's run -/

theorem processState_parts {G : Type} (ops : GeoOps G) (ds : Dataset G) (code : ℕ)
    (g : Graph) (hrun : processState ops ds code = .ok (some g)) :
    (selectState ds.rows code).isEmpty = false ∧
    ∃ gs, prepGeoms ops (groupSub ds code) = some gs
      ∧ buildAdjacency ops (mkUnits ops gs (groupSub ds code)) = .ok g.adjacency
      ∧ exMapM (mkNode (dcodeCol ds.cols) (dnameCol ds.cols)) (groupSub ds code)
          = .ok g.nodes := by
  unfold processState at hrun
  split at hrun
  case isTrue hsel => cases hrun
  case isFalse hsel =>
    have hselF : (selectState ds.rows code).isEmpty = false := by
      revert hsel
      cases (selectState ds.rows code).isEmpty <;> simp
    split at hrun
    case h_1 hprep => cases hrun
    case h_2 gs hprep =>
      split at hrun
      case h_1 e hbadj => cases hrun
      case h_2 adj hbadj =>
        split at hrun
        case h_1 e hnodes => cases hrun
        case h_2 nodes hnodes =>
          injection hrun with h1
          injection h1 with h2
          refine ⟨hselF, gs, hprep, ?_, ?_⟩
          · rw [← h2]
            exact hbadj
          · rw [← h2]
            exact hnodes

theorem prepGeoms_parts {G : Type} (ops : GeoOps G) (rows : List (Row G)) (gs : List G)
    (h : prepGeoms ops rows = some gs) :
    ∃ gs1, List.Forall₂ (fun r b => ops.toCrs r.geom = some b) rows gs1
      ∧ List.Forall₂ (fun b c => ops.buffer0 b = some c) gs1 gs := by
  unfold prepGeoms at h
  split at h
  case h_1 => cases h
  case h_2 gs1 h1 =>
    exact ⟨gs1, optMapM_forall2 _ rows gs1 h1, optMapM_forall2 _ gs1 gs h⟩

theorem prepGeoms_length {G : Type} (ops : GeoOps G) (rows : List (Row G)) (gs : List G)
    (h : prepGeoms ops rows = some gs) : gs.length = rows.length := by
  obtain ⟨gs1, f1, f2⟩ := prepGeoms_parts ops rows gs h
  exact (f1.length_eq.trans f2.length_eq).symm

theorem mkUnits_length {G : Type} (ops : GeoOps G) (gs : List G) (rows : List (Row G))
    (hl : gs.length = rows.length) : (mkUnits ops gs rows).length = rows.length := by
  simp [mkUnits, hl]

theorem mkUnits_ac_map {G : Type} (ops : GeoOps G) : ∀ (gs : List G) (rows : List (Row G)),
    gs.length = rows.length →
    (mkUnits ops gs rows).map (fun u => u.2.2) = rows.map Row.ac_no
  | [], [], _ => rfl
  | [], r :: rest, hl => by simp at hl
  | g0 :: grest, [], hl => by simp at hl
  | g0 :: grest, r :: rest, hl => by
    simp only [mkUnits, List.zip_cons_cons, List.map_cons]
    have ih := mkUnits_ac_map ops grest rest (by simpa using hl)
    simp only [mkUnits] at ih
    rw [ih]

theorem mkNode_fields {G : Type} (dc dn : Option String) (r : Row G) (nd : Node)
    (h : mkNode dc dn r = .ok nd) :
    nd.id = r.ac_no ∧ nd.ac_no = r.ac_no ∧ nd.name = r.ac_name := by
  unfold mkNode at h
  split at h
  case h_1 => cases h
  case h_2 di hdi =>
    injection h with h2
    rw [← h2]
    exact ⟨rfl, rfl, rfl⟩

theorem mkNode_district_id_none {G : Type} (dn : Option String) (r : Row G) (nd : Node)
    (h : mkNode none dn r = .ok nd) : nd.district_id = none := by
  unfold mkNode at h
  split at h
  case h_1 => cases h
  case h_2 di hdi =>
    have hna : getAttr r none = .na := rfl
    rw [hna] at hdi
    simp [PyVal.isna] at hdi
    injection h with h2
    rw [← h2, ← hdi]

theorem mkNode_district_none {G : Type} (dc : Option String) (r : Row G) (nd : Node)
    (h : mkNode dc none r = .ok nd) : nd.district = none := by
  unfold mkNode at h
  split at h
  case h_1 => cases h
  case h_2 di hdi =>
    injection h with h2
    rw [← h2]
    have hna : getAttr r none = .na := rfl
    simp [hna, PyVal.isna]

theorem groupSub_sorted {G : Type} (ds : Dataset G) (code : ℕ) :
    ((groupSub ds code).map Row.ac_no).Pairwise (fun a b => a ≤ b) := by
  have hs := List.sorted_insertionSort (@rowLE G) (selectState ds.rows code)
  exact List.Pairwise.map Row.ac_no (fun a b h => h) hs

theorem groupSub_perm {G : Type} (ds : Dataset G) (code : ℕ) :
    (groupSub ds code).Perm (selectState ds.rows code) :=
  List.perm_insertionSort rowLE (selectState ds.rows code)

/-! ### Decimal digit strings and the value Nat.repr prints -/

theorem cdigit_bounds (c : Char) (h : cdigit c = true) :
    48 ≤ c.toNat ∧ c.toNat ≤ 57 := by
  unfold cdigit at h
  simp only [Bool.and_eq_true, decide_eq_true_eq] at h
  exact h

theorem dval_le_9 (c : Char) (h : cdigit c = true) : dval c ≤ 9 := by
  have := cdigit_bounds c h
  unfold dval
  omega

theorem cdigit_eq_of_dval (a b : Char) (ha : cdigit a = true) (hb : cdigit b = true)
    (h : dval a = dval b) : a = b := by
  have h1 := cdigit_bounds a ha
  have h2 := cdigit_bounds b hb
  unfold dval at h
  have h3 : a.toNat = b.toNat := by omega
  exact Char.ext (UInt32.toNat.inj h3)

theorem foldl_dval_general (t : List Char) : ∀ (a : ℕ),
    t.foldl (fun x c => 10 * x + dval c) a = a * 10 ^ t.length + valL t := by
  induction t with
  | nil => intro a; simp [valL]
  | cons c t ih =>
    intro a
    have hcv : valL (c :: t) = dval c * 10 ^ t.length + valL t := by
      unfold valL
      simp only [List.foldl_cons]
      rw [ih (10 * 0 + dval c)]
      simp [valL]
    simp only [List.foldl_cons]
    rw [ih (10 * a + dval c), hcv, List.length_cons]
    ring

theorem valL_cons (c : Char) (t : List Char) :
    valL (c :: t) = dval c * 10 ^ t.length + valL t := by
  unfold valL
  simp only [List.foldl_cons]
  rw [foldl_dval_general t (10 * 0 + dval c)]
  simp [valL]

theorem valL_append_singleton (xs : List Char) (c : Char) :
    valL (xs ++ [c]) = 10 * valL xs + dval c := by
  unfold valL
  rw [List.foldl_append]
  simp only [List.foldl_cons, List.foldl_nil]

theorem valL_lt (l : List Char) (h : ∀ c ∈ l, cdigit c = true) :
    valL l < 10 ^ l.length := by
  induction l with
  | nil => simp [valL]
  | cons c t ih =>
    rw [valL_cons, List.length_cons, pow_succ]
    have h1 := dval_le_9 c (h c (List.mem_cons_self _ _))
    have h2 := ih (fun x hx => h x (List.mem_cons_of_mem _ hx))
    have h3 : dval c * 10 ^ t.length ≤ 9 * 10 ^ t.length :=
      Nat.mul_le_mul_right _ h1
    omega

theorem valL_ge_of_head (c : Char) (t : List Char) (hc : cdigit c = true)
    (h0 : c ≠ '0') : 10 ^ t.length ≤ valL (c :: t) := by
  rw [valL_cons]
  have h1 : 1 ≤ dval c := by
    by_contra hcon
    apply h0
    apply cdigit_eq_of_dval c '0' hc (by decide)
    have hz : dval '0' = 0 := by decide
    omega
  have h2 : 1 * 10 ^ t.length ≤ dval c * 10 ^ t.length :=
    Nat.mul_le_mul_right _ h1
  omega

theorem digit_list_inj_len : ∀ (l1 l2 : List Char), l1.length = l2.length →
    (∀ c ∈ l1, cdigit c = true) → (∀ c ∈ l2, cdigit c = true) →
    valL l1 = valL l2 → l1 = l2
  | [], [], _, _, _, _ => rfl
  | [], c :: t, hlen, _, _, _ => by simp at hlen
  | c :: t, [], hlen, _, _, _ => by simp at hlen
  | c1 :: t1, c2 :: t2, hlen, h1, h2, hval => by
    simp only [List.length_cons] at hlen
    have hlt : t1.length = t2.length := by omega
    rw [valL_cons, valL_cons, hlt] at hval
    have b1 := valL_lt t1 (fun x hx => h1 x (List.mem_cons_of_mem _ hx))
    have b2 := valL_lt t2 (fun x hx => h2 x (List.mem_cons_of_mem _ hx))
    rw [hlt] at b1
    have hd : dval c1 = dval c2 := by
      by_contra hne
      rcases Nat.lt_or_ge (dval c1) (dval c2) with h | h
      · have hs : dval c1 + 1 ≤ dval c2 := h
        have hm : (dval c1 + 1) * 10 ^ t2.length ≤ dval c2 * 10 ^ t2.length :=
          Nat.mul_le_mul_right _ hs
        have hx : dval c1 * 10 ^ t2.length + 10 ^ t2.length
            = (dval c1 + 1) * 10 ^ t2.length := by ring
        omega
      · have h' : dval c2 + 1 ≤ dval c1 := by omega
        have hm : (dval c2 + 1) * 10 ^ t2.length ≤ dval c1 * 10 ^ t2.length :=
          Nat.mul_le_mul_right _ h'
        have hx : dval c2 * 10 ^ t2.length + 10 ^ t2.length
            = (dval c2 + 1) * 10 ^ t2.length := by ring
        omega
    have hc : c1 = c2 :=
      cdigit_eq_of_dval c1 c2 (h1 c1 (List.mem_cons_self _ _))
        (h2 c2 (List.mem_cons_self _ _)) hd
    rw [hd] at hval
    have ht : t1 = t2 := digit_list_inj_len t1 t2 hlt
      (fun x hx => h1 x (List.mem_cons_of_mem _ hx))
      (fun x hx => h2 x (List.mem_cons_of_mem _ hx))
      (by omega)
    rw [hc, ht]

theorem digit_list_inj (l1 l2 : List Char)
    (h1 : ∀ c ∈ l1, cdigit c = true) (h2 : ∀ c ∈ l2, cdigit c = true)
    (hh1 : ∀ c, l1.head? = some c → c ≠ '0') (hh2 : ∀ c, l2.head? = some c → c ≠ '0')
    (hn1 : l1 ≠ []) (hn2 : l2 ≠ [])
    (hval : valL l1 = valL l2) : l1 = l2 := by
  match l1, l2 with
  | [], _ => exact absurd rfl hn1
  | _ :: _, [] => exact absurd rfl hn2
  | c1 :: t1, c2 :: t2 =>
    have g1 := valL_ge_of_head c1 t1 (h1 c1 (List.mem_cons_self _ _)) (hh1 c1 rfl)
    have g2 := valL_ge_of_head c2 t2 (h2 c2 (List.mem_cons_self _ _)) (hh2 c2 rfl)
    have b1 := valL_lt (c1 :: t1) h1
    have b2 := valL_lt (c2 :: t2) h2
    rw [List.length_cons] at b1 b2
    have hlen : t1.length = t2.length := by
      by_contra hne
      rcases Nat.lt_or_ge t1.length t2.length with h | h
      · have p1 : 10 ^ (t1.length + 1) ≤ 10 ^ t2.length :=
          Nat.pow_le_pow_right (by omega) (by omega)
        omega
      · have h' : t2.length < t1.length := by omega
        have p1 : 10 ^ (t2.length + 1) ≤ 10 ^ t1.length :=
          Nat.pow_le_pow_right (by omega) (by omega)
        omega
    exact digit_list_inj_len (c1 :: t1) (c2 :: t2) (by simp [hlen]) h1 h2 hval

theorem foldl_zero_chars (t : List Char) (h : ∀ c ∈ t, c = '0') :
    t.foldl (fun a c => 10 * a + dval c) 0 = 0 := by
  induction t with
  | nil => rfl
  | cons c t ih =>
    simp only [List.foldl_cons]
    rw [h c (List.mem_cons_self _ _)]
    have hz : 10 * 0 + dval '0' = 0 := by decide
    rw [hz]
    exact ih (fun x hx => h x (List.mem_cons_of_mem _ hx))

theorem valL_dropWhile_zeros (l : List Char) :
    valL (l.dropWhile (fun c => c == '0')) = valL l := by
  conv_rhs => rw [← List.takeWhile_append_dropWhile (p := fun c => c == '0') (l := l)]
  unfold valL
  rw [List.foldl_append]
  have hz : (l.takeWhile (fun c => c == '0')).foldl (fun a c => 10 * a + dval c) 0 = 0 := by
    apply foldl_zero_chars
    intro c hc
    have := List.mem_takeWhile_imp hc
    simpa using this
  rw [hz]

theorem head_dropWhile_ne (l : List Char) (c : Char)
    (h : (l.dropWhile (fun c => c == '0')).head? = some c) : c ≠ '0' := by
  induction l with
  | nil => simp [List.dropWhile] at h
  | cons a t ih =>
    rw [List.dropWhile_cons] at h
    split at h
    · exact ih h
    next hb =>
      simp only [List.head?_cons, Option.some.injEq] at h
      rw [← h]
      simpa using hb

theorem digitChar_props (d : ℕ) (h : d ≤ 9) :
    cdigit (Nat.digitChar d) = true ∧ dval (Nat.digitChar d) = d
      ∧ (1 ≤ d → Nat.digitChar d ≠ '0') := by
  interval_cases d <;> exact ⟨by decide, by decide, by decide⟩

theorem toDigitsCore_acc (f : ℕ) : ∀ (n : ℕ) (acc : List Char),
    Nat.toDigitsCore 10 f n acc = Nat.toDigitsCore 10 f n [] ++ acc := by
  induction f with
  | zero => intro n acc; simp [Nat.toDigitsCore]
  | succ f ih =>
    intro n acc
    simp only [Nat.toDigitsCore]
    by_cases h : n / 10 = 0
    · simp [h]
    · rw [if_neg h, if_neg h, ih (n / 10) (Nat.digitChar (n % 10) :: acc),
        ih (n / 10) [Nat.digitChar (n % 10)]]
      simp

theorem toDigitsCore_props : ∀ (f n : ℕ), n < 10 ^ f → 0 < f →
    (∀ c ∈ Nat.toDigitsCore 10 f n [], cdigit c = true)
    ∧ valL (Nat.toDigitsCore 10 f n []) = n
    ∧ Nat.toDigitsCore 10 f n [] ≠ []
    ∧ (1 ≤ n → ∀ c, (Nat.toDigitsCore 10 f n []).head? = some c → c ≠ '0')
  | 0, n, _, hf => absurd hf (by omega)
  | f + 1, n, hn, _ => by
    have hd9 : n % 10 ≤ 9 := by omega
    obtain ⟨hdig, hdval, hdzero⟩ := digitChar_props (n % 10) hd9
    by_cases h : n / 10 = 0
    · have hn10 : n < 10 := by omega
      have hmod : n % 10 = n := by omega
      have hrepr : Nat.toDigitsCore 10 (f + 1) n [] = [Nat.digitChar (n % 10)] := by
        simp [Nat.toDigitsCore, h]
      rw [hrepr]
      refine ⟨?_, ?_, by simp, ?_⟩
      · intro c hc
        simp only [List.mem_singleton] at hc
        rw [hc]
        exact hdig
      · rw [show ([Nat.digitChar (n % 10)] : List Char)
            = [] ++ [Nat.digitChar (n % 10)] by simp, valL_append_singleton]
        have hv0 : valL ([] : List Char) = 0 := rfl
        rw [hv0, hdval]
        omega
      · intro h1 c hc
        simp only [List.head?_cons, Option.some.injEq] at hc
        rw [← hc]
        exact hdzero (by omega)
    · have hf1 : 0 < f := by
        by_contra hf0
        have hfz : f = 0 := by omega
        subst hfz
        have : n < 10 := by simpa using hn
        omega
      have hlt : n / 10 < 10 ^ f := by
        rw [Nat.div_lt_iff_lt_mul (by norm_num)]
        calc n < 10 ^ (f + 1) := hn
        _ = 10 ^ f * 10 := by ring
      obtain ⟨ih_dig, ih_val, ih_ne, ih_hd⟩ := toDigitsCore_props f (n / 10) hlt hf1
      have hrepr : Nat.toDigitsCore 10 (f + 1) n []
          = Nat.toDigitsCore 10 f (n / 10) [] ++ [Nat.digitChar (n % 10)] := by
        simp only [Nat.toDigitsCore]
        rw [if_neg h]
        exact toDigitsCore_acc f (n / 10) [Nat.digitChar (n % 10)]
      rw [hrepr]
      refine ⟨?_, ?_, by simp, ?_⟩
      · intro c hc
        rcases List.mem_append.mp hc with hc | hc
        · exact ih_dig c hc
        · simp only [List.mem_singleton] at hc
          rw [hc]
          exact hdig
      · rw [valL_append_singleton, ih_val, hdval]
        omega
      · intro h1 c hc
        rw [List.head?_append] at hc
        cases hx : (Nat.toDigitsCore 10 f (n / 10) []).head? with
        | none => exact absurd (List.head?_eq_none_iff.mp hx) ih_ne
        | some c2 =>
          rw [hx] at hc
          simp only [Option.or_some, Option.some.injEq] at hc
          rw [← hc]
          exact ih_hd (by omega) c2 hx

theorem repr_toList (n : ℕ) :
    (Nat.repr n).toList = Nat.toDigitsCore 10 (n + 1) n [] := rfl

theorem repr_props (t : ℕ) :
    (∀ c ∈ (Nat.repr t).toList, cdigit c = true)
    ∧ valL ((Nat.repr t).toList) = t
    ∧ (Nat.repr t).toList ≠ []
    ∧ (1 ≤ t → ∀ c, ((Nat.repr t).toList).head? = some c → c ≠ '0') := by
  have h1 : t < 10 ^ (t + 1) := by
    have h2 := Nat.lt_pow_self (by norm_num : (1:ℕ) < 10) t
    have h3 : (10:ℕ) ^ t ≤ 10 ^ (t + 1) := Nat.pow_le_pow_right (by norm_num) (by omega)
    omega
  rw [repr_toList]
  exact toDigitsCore_props (t + 1) t h1 (by omega)

theorem matchesCode_iff (s : String) (t : ℕ) (hd : isDigitStr s = true) (ht : 1 ≤ t) :
    matchesCode s t = true ↔ strVal s = t := by
  have hdig : ∀ c ∈ s.toList, cdigit c = true := by
    intro c hc
    exact List.all_eq_true.mp hd c hc
  obtain ⟨r1, r2, r3, r4⟩ := repr_props t
  constructor
  · intro hm
    have hstr : lstrip0 s = Nat.repr t := by
      unfold matchesCode at hm
      exact beq_iff_eq.mp hm
    have heq : s.toList.dropWhile (fun c => c == '0') = (Nat.repr t).toList := by
      have := congrArg String.toList hstr
      exact this
    unfold strVal
    rw [← valL_dropWhile_zeros, heq, r2]
  · intro hv
    unfold matchesCode
    rw [beq_iff_eq]
    have hlist : s.toList.dropWhile (fun c => c == '0') = (Nat.repr t).toList := by
      apply digit_list_inj
      · intro c hc
        exact hdig c ((List.dropWhile_sublist _).mem hc)
      · exact r1
      · intro c hc
        exact head_dropWhile_ne s.toList c hc
      · exact r4 ht
      · intro hnil
        have hz := valL_dropWhile_zeros s.toList
        rw [hnil] at hz
        have : valL ([] : List Char) = 0 := rfl
        unfold strVal at hv
        omega
      · exact r3
      · rw [valL_dropWhile_zeros]
        unfold strVal at hv
        rw [hv, r2]
    show (⟨s.toList.dropWhile (fun c => c == '0')⟩ : String) = Nat.repr t
    rw [hlist]
    rfl

/-! ### Schema resolver characterization -/

theorem find_col_isSome_iff (cols : List String) (needles : List String) :
    (find_col cols needles).isSome = true
    ↔ ∃ c ∈ cols, ∀ nd ∈ needles, strContains (upperStr c) nd = true := by
  induction cols with
  | nil => simp [find_col]
  | cons c rest ih =>
    rw [find_col]
    by_cases h : needles.all (fun nd => strContains (upperStr c) nd) = true
    · rw [if_pos h]
      simp only [Option.isSome_some, true_iff]
      exact ⟨c, List.mem_cons_self _ _, fun nd hnd => List.all_eq_true.mp h nd hnd⟩
    · rw [if_neg h, ih]
      constructor
      · rintro ⟨c2, hc2, hall⟩
        exact ⟨c2, List.mem_cons_of_mem _ hc2, hall⟩
      · rintro ⟨c2, hc2, hall⟩
        rcases List.mem_cons.mp hc2 with rfl | hc2
        · exact absurd (List.all_eq_true.mpr hall) h
        · exact ⟨c2, hc2, hall⟩

theorem dcodeCol_isSome_iff (cols : List String) :
    (dcodeCol cols).isSome = true
    ↔ ∃ c ∈ cols, (∀ nd ∈ ["DIST", "COD"], strContains (upperStr c) nd = true)
        ∨ (∀ nd ∈ ["DIST", "NO"], strContains (upperStr c) nd = true) := by
  unfold dcodeCol
  cases h1 : find_col cols ["DIST", "COD"] with
  | some c =>
    have hs : (find_col cols ["DIST", "COD"]).isSome = true := by rw [h1]; rfl
    obtain ⟨c2, hc2, hall⟩ := (find_col_isSome_iff cols ["DIST", "COD"]).mp hs
    simp only [Option.orElse, Option.isSome_some, true_iff]
    exact ⟨c2, hc2, Or.inl hall⟩
  | none =>
    simp only [Option.orElse]
    rw [find_col_isSome_iff]
    constructor
    · rintro ⟨c2, hc2, hall⟩
      exact ⟨c2, hc2, Or.inr hall⟩
    · rintro ⟨c2, hc2, hor⟩
      rcases hor with h | h
      · have hs := (find_col_isSome_iff cols ["DIST", "COD"]).mpr ⟨c2, hc2, h⟩
        rw [h1] at hs
        cases hs
      · exact ⟨c2, hc2, h⟩

/-! ### Symmetry of the concrete geometry model -/

theorem mops_touches_symm (a b : MGeom) : mops.touches a b = mops.touches b a := by
  show decide ((a.segs ∩ b.segs).Nonempty ∨ (a.pts ∩ b.pts).Nonempty)
      = decide ((b.segs ∩ a.segs).Nonempty ∨ (b.pts ∩ a.pts).Nonempty)
  rw [Finset.inter_comm a.segs, Finset.inter_comm a.pts]

theorem mops_ilen_symm (a b : MGeom) : mops.ilen a b = mops.ilen b a := by
  show (((a.segs ∩ b.segs).card : ℚ)) = (((b.segs ∩ a.segs).card : ℚ))
  rw [Finset.inter_comm a.segs]

/-! ### Edge presence at a unit's slot -/

theorem groupUnits_inv {G : Type} (ops : GeoOps G) (ds : Dataset G) (code : ℕ)
    (units : List (G × ℚ × ℤ)) (gs : List G)
    (hunits : groupUnits ops ds code = some units)
    (hprep : prepGeoms ops (groupSub ds code) = some gs) :
    units = mkUnits ops gs (groupSub ds code) := by
  unfold groupUnits at hunits
  rw [hprep] at hunits
  injection hunits with h
  exact h.symm

theorem slot_edges {G : Type} (ops : GeoOps G) (units : List (G × ℚ × ℤ))
    (adj : List (List Entry))
    (hok : buildAdjacency ops units = .ok adj)
    (hr : ∀ u ∈ units, 1 ≤ u.2.2 ∧ u.2.2 ≤ (units.length : ℤ))
    (hinj : (units.map (fun u => u.2.2)).Nodup)
    (i j : ℕ) (hi : i < units.length) (hj : j < units.length) (hne : i ≠ j) :
    ((∃ e ∈ adj.getD ((units.get ⟨i, hi⟩).2.2 - 1).toNat [],
        e.id = (units.get ⟨j, hj⟩).2.2)
      ↔ (ops.touches (units.get ⟨i, hi⟩).1 (units.get ⟨j, hj⟩).1 = true
          ∧ 0 < ops.ilen (units.get ⟨i, hi⟩).1 (units.get ⟨j, hj⟩).1))
    ∧ ∀ e ∈ adj.getD ((units.get ⟨i, hi⟩).2.2 - 1).toNat [],
        e.id = (units.get ⟨j, hj⟩).2.2 →
        e.shared_perim = ops.ilen (units.get ⟨i, hi⟩).1 (units.get ⟨j, hj⟩).1
          / (units.get ⟨i, hi⟩).2.1 := by
  obtain ⟨hlen, hslot⟩ := buildAdjacency_char ops units adj hok hr hinj
  rw [hslot i hi]
  have hidfix : ∀ (j2 : ℕ) (hj2 : j2 < units.length),
      (units.get ⟨j2, hj2⟩).2.2 = (units.get ⟨j, hj⟩).2.2 → j2 = j := by
    intro j2 hj2 hid
    by_contra hne2
    exact nodup_map_get_ne (fun u => u.2.2) units hinj j2 j hj2 hj hne2 hid
  constructor
  · constructor
    · rintro ⟨e, he, hid⟩
      obtain ⟨j2, hj2, hne2, ht, hil, rfl⟩ :=
        (mem_unitEdges ops units i _ _ e).mp he
      have : j2 = j := hidfix j2 hj2 hid
      subst this
      exact ⟨ht, hil⟩
    · rintro ⟨ht, hil⟩
      refine ⟨⟨(units.get ⟨j, hj⟩).2.2,
        ops.ilen (units.get ⟨i, hi⟩).1 (units.get ⟨j, hj⟩).1
          / (units.get ⟨i, hi⟩).2.1⟩, ?_, rfl⟩
      exact (mem_unitEdges ops units i _ _ _).mpr ⟨j, hj, hne, ht, hil, rfl⟩
  · intro e he hid
    obtain ⟨j2, hj2, hne2, ht, hil, rfl⟩ :=
      (mem_unitEdges ops units i _ _ e).mp he
    have : j2 = j := hidfix j2 hj2 hid
    subst this
    rfl

/-- C1: for every processed group and every pair of distinct units (i, j) of
that group, the builder records an entry whose id is the unit number of j on
the adjacency slot of unit i exactly when the spatial-index touch predicate
holds between their prepared geometries and the geometric intersection has
strictly positive length, and every entry recorded there for j stores the
intersection length divided by unit i's own perimeter; a touch candidate with
zero-length intersection produces no edge. -/
theorem C1_edge_iff {G : Type} (ops : GeoOps G) (ds : Dataset G) (code : ℕ)
    (g : Graph) (units : List (G × ℚ × ℤ))
    (hrun : processState ops ds code = .ok (some g))
    (hunits : groupUnits ops ds code = some units)
    (hr : ∀ u ∈ units, 1 ≤ u.2.2 ∧ u.2.2 ≤ (units.length : ℤ))
    (hinj : (units.map (fun u => u.2.2)).Nodup)
    (i j : ℕ) (hi : i < units.length) (hj : j < units.length) (hne : i ≠ j) :
    ((∃ e ∈ g.adjacency.getD ((units.get ⟨i, hi⟩).2.2 - 1).toNat [],
        e.id = (units.get ⟨j, hj⟩).2.2)
      ↔ (ops.touches (units.get ⟨i, hi⟩).1 (units.get ⟨j, hj⟩).1 = true
          ∧ 0 < ops.ilen (units.get ⟨i, hi⟩).1 (units.get ⟨j, hj⟩).1))
    ∧ ∀ e ∈ g.adjacency.getD ((units.get ⟨i, hi⟩).2.2 - 1).toNat [],
        e.id = (units.get ⟨j, hj⟩).2.2 →
        e.shared_perim = ops.ilen (units.get ⟨i, hi⟩).1 (units.get ⟨j, hj⟩).1
          / (units.get ⟨i, hi⟩).2.1 := by
  obtain ⟨hsel, gs, hprep, hbadj, hnodes⟩ := processState_parts ops ds code g hrun
  have hu := groupUnits_inv ops ds code units gs hunits hprep
  rw [← hu] at hbadj
  exact slot_edges ops units g.adjacency hbadj hr hinj i j hi hj hne

theorem C1_edge_iff_witness :
    ((∃ e ∈ wgraph.adjacency.getD ((wunits.get ⟨0, by decide⟩).2.2 - 1).toNat [],
        e.id = (wunits.get ⟨1, by decide⟩).2.2)
      ↔ (mops.touches (wunits.get ⟨0, by decide⟩).1 (wunits.get ⟨1, by decide⟩).1 = true
          ∧ 0 < mops.ilen (wunits.get ⟨0, by decide⟩).1 (wunits.get ⟨1, by decide⟩).1))
    ∧ ∀ e ∈ wgraph.adjacency.getD ((wunits.get ⟨0, by decide⟩).2.2 - 1).toNat [],
        e.id = (wunits.get ⟨1, by decide⟩).2.2 →
        e.shared_perim = mops.ilen (wunits.get ⟨0, by decide⟩).1 (wunits.get ⟨1, by decide⟩).1
          / (wunits.get ⟨0, by decide⟩).2.1 :=
  C1_edge_iff mops wds 7 wgraph wunits (by with_unfolding_all rfl)
    (by with_unfolding_all rfl) (by decide) (by decide)
    0 1 (by decide) (by decide) (by decide)

theorem forall2_mem_right {α β : Type} {R : α → β → Prop} :
    ∀ {l : List α} {ys : List β}, List.Forall₂ R l ys →
    ∀ b ∈ ys, ∃ a ∈ l, R a b := by
  intro l ys hf
  induction hf with
  | nil => intro b hb; cases hb
  | cons hab htl ih =>
    intro b hb
    rcases List.mem_cons.mp hb with rfl | hb
    · exact ⟨_, List.mem_cons_self _ _, hab⟩
    · obtain ⟨a, ha, hr⟩ := ih b hb
      exact ⟨a, List.mem_cons_of_mem _ ha, hr⟩

/-- C2: for every emitted graph, the adjacency sequence has exactly as many
entries as the node sequence, and, when the group's unit numbers are distinct
and lie in 1..N, slot k of the adjacency sequence holds exactly the edges the
loop records for the unit whose declared unit number is k + 1. -/
theorem C2_parallel_arrays {G : Type} (ops : GeoOps G) (ds : Dataset G) (code : ℕ)
    (g : Graph) (units : List (G × ℚ × ℤ))
    (hrun : processState ops ds code = .ok (some g))
    (hunits : groupUnits ops ds code = some units)
    (hr : ∀ u ∈ units, 1 ≤ u.2.2 ∧ u.2.2 ≤ (units.length : ℤ))
    (hinj : (units.map (fun u => u.2.2)).Nodup) :
    g.adjacency.length = g.nodes.length ∧
    ∀ (k m : ℕ) (hm : m < units.length), (units.get ⟨m, hm⟩).2.2 = (k : ℤ) + 1 →
      g.adjacency.getD k []
        = unitEdges ops units m (units.get ⟨m, hm⟩).1 (units.get ⟨m, hm⟩).2.1 := by
  obtain ⟨hsel, gs, hprep, hbadj, hnodes⟩ := processState_parts ops ds code g hrun
  have hu := groupUnits_inv ops ds code units gs hunits hprep
  rw [← hu] at hbadj
  obtain ⟨hlen, hslot⟩ := buildAdjacency_char ops units g.adjacency hbadj hr hinj
  constructor
  · rw [hlen]
    have h1 : units.length = (groupSub ds code).length := by
      rw [hu]
      exact mkUnits_length ops gs _ (prepGeoms_length ops _ gs hprep)
    rw [h1]
    exact (exMapM_forall2 _ _ _ hnodes).length_eq
  · intro k m hm hk
    have hs := hslot m hm
    have hkk : ((units.get ⟨m, hm⟩).2.2 - 1).toNat = k := by
      rw [hk]
      omega
    rw [← hkk]
    exact hs

theorem C2_parallel_arrays_witness :
    (wgraph.adjacency.length = wgraph.nodes.length)
    ∧ wgraph.adjacency.getD 1 []
        = unitEdges mops wunits 1 (wunits.get ⟨1, by decide⟩).1 (wunits.get ⟨1, by decide⟩).2.1 := by
  have h := C2_parallel_arrays mops wds 7 wgraph wunits (by with_unfolding_all rfl)
    (by with_unfolding_all rfl) (by decide) (by decide)
  exact ⟨h.1, h.2 1 1 (by decide) (by decide)⟩

/-- C6 counterexample: a dataset whose three units carry the positive,
distinct, but non-contiguous unit numbers 1, 2, 5 is processed without error,
and the emitted node ids are 1, 2, 5 — not the set 1..3 the claim requires. -/
theorem C6_node_ids_cex :
    processState mops dsGap 7 = .ok (some gapGraph)
    ∧ gapGraph.nodes.map Node.id = [1, 2, 5]
    ∧ gapGraph.nodes.length = 3
    ∧ (3 : ℤ) ∉ gapGraph.nodes.map Node.id
    ∧ gapGraph.nodes.map Node.id ≠ [1, 2, 3] := by
  refine ⟨by with_unfolding_all rfl, by decide, by decide, by decide, by decide⟩

/-- C6 (amended): for every emitted graph, the node ids are exactly the
declared unit numbers of the group's records in ascending order — the unit
number attribute, never the internal row index — and the ids are the
contiguous sequence 1..N precisely when the group's declared unit numbers are;
nothing enforces contiguity on arbitrary input. -/
theorem C6_node_ids_amended {G : Type} (ops : GeoOps G) (ds : Dataset G) (code : ℕ)
    (g : Graph) (hrun : processState ops ds code = .ok (some g)) :
    g.nodes.map Node.id = (groupSub ds code).map Row.ac_no
    ∧ (g.nodes.map Node.id).Pairwise (fun a b => a ≤ b)
    ∧ (∀ nd ∈ g.nodes, nd.id = nd.ac_no)
    ∧ (g.nodes.map Node.id = (List.range g.nodes.length).map (fun k => (k : ℤ) + 1)
        ↔ (groupSub ds code).map Row.ac_no
            = (List.range g.nodes.length).map (fun k => (k : ℤ) + 1)) := by
  obtain ⟨hsel, gs, hprep, hbadj, hnodes⟩ := processState_parts ops ds code g hrun
  have hf := exMapM_forall2 _ _ _ hnodes
  have hids : g.nodes.map Node.id = (groupSub ds code).map Row.ac_no := by
    apply forall2_map_eq Node.id Row.ac_no hf
    intro r nd hr2
    exact (mkNode_fields _ _ r nd hr2).1
  refine ⟨hids, ?_, ?_, by rw [hids]⟩
  · rw [hids]
    exact groupSub_sorted ds code
  · intro nd hnd
    obtain ⟨r, hrm, hrr⟩ := forall2_mem_right hf nd hnd
    obtain ⟨h1, h2, h3⟩ := mkNode_fields _ _ r nd hrr
    rw [h1, h2]

theorem C6_node_ids_amended_witness :
    wgraph.nodes.map Node.id = (groupSub wds 7).map Row.ac_no
    ∧ (wgraph.nodes.map Node.id).Pairwise (fun a b => a ≤ b)
    ∧ (∀ nd ∈ wgraph.nodes, nd.id = nd.ac_no)
    ∧ (wgraph.nodes.map Node.id
          = (List.range wgraph.nodes.length).map (fun k => (k : ℤ) + 1)
        ↔ (groupSub wds 7).map Row.ac_no
            = (List.range wgraph.nodes.length).map (fun k => (k : ℤ) + 1)) :=
  C6_node_ids_amended mops wds 7 wgraph (by with_unfolding_all rfl)

/-- C9: in every emitted graph whose group has distinct positive unit numbers
in range, no node's own id occurs as a neighbor id in that node's adjacency
list. -/
theorem C9_no_self_loops {G : Type} (ops : GeoOps G) (ds : Dataset G) (code : ℕ)
    (g : Graph) (units : List (G × ℚ × ℤ))
    (hrun : processState ops ds code = .ok (some g))
    (hunits : groupUnits ops ds code = some units)
    (hr : ∀ u ∈ units, 1 ≤ u.2.2 ∧ u.2.2 ≤ (units.length : ℤ))
    (hinj : (units.map (fun u => u.2.2)).Nodup) :
    ∀ nd ∈ g.nodes, ∀ e ∈ g.adjacency.getD (nd.id - 1).toNat [], e.id ≠ nd.id := by
  obtain ⟨hsel, gs, hprep, hbadj, hnodes⟩ := processState_parts ops ds code g hrun
  have hu := groupUnits_inv ops ds code units gs hunits hprep
  rw [← hu] at hbadj
  obtain ⟨hlen, hslot⟩ := buildAdjacency_char ops units g.adjacency hbadj hr hinj
  intro nd hnd e he
  -- nd.id is the unit number of some prepared unit
  have hf := exMapM_forall2 _ _ _ hnodes
  obtain ⟨r, hrm, hrr⟩ := forall2_mem_right hf nd hnd
  have hid : nd.id = r.ac_no := (mkNode_fields _ _ r nd hrr).1
  have hacm : r.ac_no ∈ units.map (fun u => u.2.2) := by
    rw [hu, mkUnits_ac_map ops gs _ (prepGeoms_length ops _ gs hprep)]
    exact List.mem_map_of_mem Row.ac_no hrm
  obtain ⟨⟨m, hm⟩, hgm⟩ := List.mem_iff_get.mp hacm
  rw [List.length_map] at hm
  have hgm2 : (units.get ⟨m, hm⟩).2.2 = r.ac_no := by
    rw [← hgm]
    simp
  rw [hid, ← hgm2] at he
  rw [hslot m hm] at he
  obtain ⟨j2, hj2, hne2, ht, hil, rfl⟩ := (mem_unitEdges ops units m _ _ e).mp he
  have hne3 : (units.get ⟨j2, hj2⟩).2.2 ≠ (units.get ⟨m, hm⟩).2.2 :=
    nodup_map_get_ne (fun u => u.2.2) units hinj j2 m hj2 hm (fun hcon => hne2 hcon.symm)
  rw [hid, ← hgm2]
  exact hne3

theorem C9_no_self_loops_witness :
    ∃ nd ∈ wgraph.nodes, ∃ e ∈ wgraph.adjacency.getD (nd.id - 1).toNat [],
      e.id ≠ nd.id := by
  have h := C9_no_self_loops mops wds 7 wgraph wunits (by with_unfolding_all rfl)
    (by with_unfolding_all rfl) (by decide) (by decide)
  refine ⟨wgraph.nodes.get ⟨1, by decide⟩, List.get_mem _ _ _,
    ⟨1, 1/2⟩, by with_unfolding_all decide, ?_⟩
  apply h
  · exact List.get_mem _ _ _
  · with_unfolding_all decide

/-- C10: edge existence between two distinct units of a processed group is
symmetric whenever the geometry library's touch predicate and intersection
length are symmetric in their two arguments — the list of unit j contains an
entry for unit i exactly when the list of unit i contains an entry for unit j
(the two stored ratios may still differ, each being normalized by its owner's
perimeter). -/
theorem C10_symmetric_edges {G : Type} (ops : GeoOps G) (ds : Dataset G) (code : ℕ)
    (g : Graph) (units : List (G × ℚ × ℤ))
    (hrun : processState ops ds code = .ok (some g))
    (hunits : groupUnits ops ds code = some units)
    (hr : ∀ u ∈ units, 1 ≤ u.2.2 ∧ u.2.2 ≤ (units.length : ℤ))
    (hinj : (units.map (fun u => u.2.2)).Nodup)
    (hts : ∀ a b, ops.touches a b = ops.touches b a)
    (his : ∀ a b, ops.ilen a b = ops.ilen b a)
    (i j : ℕ) (hi : i < units.length) (hj : j < units.length) (hne : i ≠ j) :
    ((∃ e ∈ g.adjacency.getD ((units.get ⟨i, hi⟩).2.2 - 1).toNat [],
        e.id = (units.get ⟨j, hj⟩).2.2)
      ↔ (∃ e ∈ g.adjacency.getD ((units.get ⟨j, hj⟩).2.2 - 1).toNat [],
          e.id = (units.get ⟨i, hi⟩).2.2)) := by
  obtain ⟨hsel, gs, hprep, hbadj, hnodes⟩ := processState_parts ops ds code g hrun
  have hu := groupUnits_inv ops ds code units gs hunits hprep
  rw [← hu] at hbadj
  have h1 := (slot_edges ops units g.adjacency hbadj hr hinj i j hi hj hne).1
  have h2 := (slot_edges ops units g.adjacency hbadj hr hinj j i hj hi
    (fun hcon => hne hcon.symm)).1
  rw [h1, h2, hts (units.get ⟨i, hi⟩).1 (units.get ⟨j, hj⟩).1,
    his (units.get ⟨i, hi⟩).1 (units.get ⟨j, hj⟩).1]

theorem C10_symmetric_edges_witness :
    ((∃ e ∈ wgraph.adjacency.getD ((wunits.get ⟨0, by decide⟩).2.2 - 1).toNat [],
        e.id = (wunits.get ⟨1, by decide⟩).2.2)
      ↔ (∃ e ∈ wgraph.adjacency.getD ((wunits.get ⟨1, by decide⟩).2.2 - 1).toNat [],
          e.id = (wunits.get ⟨0, by decide⟩).2.2)) :=
  C10_symmetric_edges mops wds 7 wgraph wunits (by with_unfolding_all rfl)
    (by with_unfolding_all rfl) (by decide) (by decide)
    mops_touches_symm mops_ilen_symm 0 1 (by decide) (by decide) (by decide)

theorem forall2_mem_left {α β : Type} {R : α → β → Prop} :
    ∀ {l : List α} {ys : List β}, List.Forall₂ R l ys →
    ∀ a ∈ l, ∃ b ∈ ys, R a b := by
  intro l ys hf
  induction hf with
  | nil => intro a ha; cases ha
  | cons hab htl ih =>
    intro a ha
    rcases List.mem_cons.mp ha with rfl | ha
    · exact ⟨_, List.mem_cons_self _ _, hab⟩
    · obtain ⟨b, hb, hr⟩ := ih a ha
      exact ⟨b, List.mem_cons_of_mem _ hb, hr⟩

/-- C3: every serialized artifact preserves the data-model field names and
nesting: the document is an object with exactly the two top-level fields
`nodes` and `adjacency`; every node record is serialized as an object with the
fields `id`, `ac_no`, `name`, the sub-group-id field `district_id` and the
sub-group-name field `district`; and every adjacency entry is an object with
exactly the neighbor-id field `id` and the shared-boundary-ratio field
`shared_perim`. -/
theorem C3_artifact_fields {G : Type} (ops : GeoOps G) (ds : Dataset G) (code : ℕ)
    (g : Graph) (_hrun : processState ops ds code = .ok (some g)) :
    jkeys (graphToJson g) = ["nodes", "adjacency"]
    ∧ (∀ nd ∈ g.nodes, jkeys (nodeToJson nd)
        = ["id", "ac_no", "name", "district_id", "district"])
    ∧ (∀ l ∈ g.adjacency, ∀ e ∈ l, jkeys (entryToJson e) = ["id", "shared_perim"])
    ∧ graphToJson g
      = .jobj [("nodes", .jarr (g.nodes.map nodeToJson)),
          ("adjacency", .jarr (g.adjacency.map (fun l => .jarr (l.map entryToJson))))] := by
  refine ⟨rfl, ?_, ?_, rfl⟩
  · intro nd _
    rfl
  · intro l _ e _
    rfl

theorem C3_artifact_fields_witness :
    jkeys (graphToJson wgraph) = ["nodes", "adjacency"]
    ∧ (∀ nd ∈ wgraph.nodes, jkeys (nodeToJson nd)
        = ["id", "ac_no", "name", "district_id", "district"])
    ∧ (∀ l ∈ wgraph.adjacency, ∀ e ∈ l, jkeys (entryToJson e) = ["id", "shared_perim"])
    ∧ graphToJson wgraph
      = .jobj [("nodes", .jarr (wgraph.nodes.map nodeToJson)),
          ("adjacency", .jarr (wgraph.adjacency.map (fun l => .jarr (l.map entryToJson))))] :=
  C3_artifact_fields mops wds 7 wgraph (by with_unfolding_all rfl)

theorem string_data_length (s : String) : s.data.length = s.length := rfl

theorem dumpGraph_two_le (g : Graph) : 2 ≤ (dumpGraph g).length := by
  unfold dumpGraph graphToJson
  simp only [dumpJval]
  simp only [String.length_append]
  have hb : ("\x7b" : String).length = 1 := by decide
  have hc : ("\x7d" : String).length = 1 := by decide
  omega

/-- C4 counterexample: the script writes the artifact with a single direct
`write_text`; interrupting that write after one character leaves the
destination holding a one-character file that is neither the previous content
nor the complete serialized document, so the write is not all-or-nothing. -/
theorem writeTextInterrupted_length (s : String) (k : ℕ) :
    (writeTextInterrupted s k).length = min k s.length := by
  show (List.take k s.data).length = min k s.data.length
  exact List.length_take k s.data

theorem C4_atomic_write_cex :
    ¬ atomicOutcome "old" (dumpGraph wgraph) (writeTextInterrupted (dumpGraph wgraph) 1) := by
  have hL := dumpGraph_two_le wgraph
  have hlen := writeTextInterrupted_length (dumpGraph wgraph) 1
  intro hcon
  rcases hcon with h | h
  · have h2 := congrArg String.length h
    have hold : ("old" : String).length = 3 := by decide
    rw [hlen] at h2
    omega
  · have h2 := congrArg String.length h
    rw [hlen] at h2
    omega

/-- C4 (amended): the artifact write is one direct `write_text` to the final
path with no temp-then-rename discipline: a write that runs to completion
leaves exactly the serialized document, but a write interrupted after `k`
characters, with `k` short of the document's length, leaves a file that
differs from the complete document — a partially written artifact on disk. -/
theorem C4_write_not_atomic (g : Graph) (k : ℕ) (hk : k < (dumpGraph g).length) :
    writeTextComplete (dumpGraph g) = dumpGraph g
    ∧ writeTextInterrupted (dumpGraph g) k ≠ dumpGraph g := by
  refine ⟨rfl, ?_⟩
  intro hcon
  have hlen := congrArg String.length hcon
  have h1 : (writeTextInterrupted (dumpGraph g) k).length
      = min k (dumpGraph g).length := by
    show (List.take k (dumpGraph g).data).length = min k (dumpGraph g).data.length
    exact List.length_take k (dumpGraph g).data
  rw [h1] at hlen
  omega

theorem C4_write_not_atomic_witness :
    1 < (dumpGraph wgraph).length
    ∧ (writeTextComplete (dumpGraph wgraph) = dumpGraph wgraph
        ∧ writeTextInterrupted (dumpGraph wgraph) 1 ≠ dumpGraph wgraph) :=
  ⟨by have := dumpGraph_two_le wgraph; omega,
    C4_write_not_atomic wgraph 1 (by have := dumpGraph_two_le wgraph; omega)⟩

/-- C5 counterexample: a group holding one record whose geometry repair raises
next to a healthy record aborts with the propagated geometry error — no graph
is emitted, so the irreparable unit is not reported-and-excluded and is not
emitted as a node, and the healthy unit of the same group is not processed
either. -/
theorem C5_geometry_failure_cex :
    processState mops dsBad 7 = .error geomFailMsg := by
  with_unfolding_all rfl

/-- C5 (amended): geometry failures are not handled at unit granularity — if
reprojection or repair of any record of the group raises, the whole group's
run aborts with the propagated geometry error; no unit of the group is
individually excluded or emitted as a node. -/
theorem C5_geometry_failure_aborts {G : Type} (ops : GeoOps G) (ds : Dataset G)
    (code : ℕ)
    (hbad : ∃ r ∈ groupSub ds code, ops.toCrs r.geom = none
        ∨ ∃ g2, ops.toCrs r.geom = some g2 ∧ ops.buffer0 g2 = none) :
    processState ops ds code = .error geomFailMsg := by
  obtain ⟨r, hrm, hfail⟩ := hbad
  have hmem : r ∈ selectState ds.rows code := (groupSub_perm ds code).mem_iff.mp hrm
  have hne : ¬ ((selectState ds.rows code).isEmpty = true) := by
    cases hsel : selectState ds.rows code with
    | nil => rw [hsel] at hmem; cases hmem
    | cons a t => simp [List.isEmpty]
  have hprep : prepGeoms ops (groupSub ds code) = none := by
    cases hp : prepGeoms ops (groupSub ds code) with
    | none => rfl
    | some gs =>
      exfalso
      obtain ⟨gs1, f1, f2⟩ := prepGeoms_parts ops _ gs hp
      obtain ⟨b, hbm, hrb⟩ := forall2_mem_left f1 r hrm
      rcases hfail with hf | ⟨g2, hg2, hbuf⟩
      · rw [hf] at hrb
        cases hrb
      · rw [hg2] at hrb
        injection hrb with hbg
        obtain ⟨c, hcm, hbc⟩ := forall2_mem_left f2 b hbm
        rw [hbg] at hbuf
        rw [hbuf] at hbc
        cases hbc
  unfold processState
  rw [if_neg hne, hprep]

theorem C5_geometry_failure_aborts_witness :
    (∃ r ∈ groupSub dsBad 7, mops.toCrs r.geom = none
        ∨ ∃ g2, mops.toCrs r.geom = some g2 ∧ mops.buffer0 g2 = none)
    ∧ processState mops dsBad 7 = .error geomFailMsg :=
  ⟨by with_unfolding_all decide,
    C5_geometry_failure_aborts mops dsBad 7 (by with_unfolding_all decide)⟩

/-- C7 counterexample: the record whose group-code attribute is the digit
string "0" has canonical integer value 0, equal to the target code 0, yet the
loader's lstrip-based test rejects it and the record is not selected —
canonical-integer equality and the implemented selection disagree on all-zero
codes. -/
theorem C7_zero_code_cex :
    strVal "0" = 0
    ∧ isDigitStr "0" = true
    ∧ matchesCode "0" 0 = false
    ∧ rowZero.st_code = "0"
    ∧ selectState [rowZero] 0 = [] := by
  refine ⟨by decide, by decide, by decide, rfl, by decide⟩

/-- C7 (amended): for every record whose group-code attribute is a decimal
digit string and every positive target code, the loader selects the record
exactly when the attribute's canonical integer value equals the target — e.g.
"007" and 7 are treated as equal.  (An all-zero attribute such as "0" is
nevertheless never selected, even for target 0, because stripping its leading
zeros leaves the empty string rather than "0".) -/
theorem C7_selection_iff {G : Type} (rows : List (Row G)) (r : Row G) (code : ℕ)
    (hd : isDigitStr r.st_code = true) (hpos : 1 ≤ code) :
    r ∈ selectState rows code ↔ r ∈ rows ∧ strVal r.st_code = code := by
  unfold selectState
  rw [List.mem_filter, matchesCode_iff r.st_code code hd hpos]

theorem C7_selection_iff_witness :
    isDigitStr (wrow 1 "A" wgeom1).st_code = true ∧ 1 ≤ 7
    ∧ ((wrow 1 "A" wgeom1) ∈ selectState wds.rows 7
        ↔ (wrow 1 "A" wgeom1) ∈ wds.rows ∧ strVal (wrow 1 "A" wgeom1).st_code = 7) :=
  ⟨by decide, by decide,
    C7_selection_iff wds.rows (wrow 1 "A" wgeom1) 7 (by decide) (by decide)⟩

/-- C8: the schema resolver picks a sub-group-code column exactly when some
column name case-insensitively contains both the group token "DIST" and the
code token "COD" or, as fallback, the number token "NO"; it picks a
sub-group-name column exactly when some column name contains both "DIST" and
"NAME"; and when no candidate exists for a role, every emitted node carries a
null value for that attribute while the run completes without error. -/
theorem C8_schema_resolver {G : Type} (ops : GeoOps G) (ds : Dataset G) (code : ℕ)
    (g : Graph) (hrun : processState ops ds code = .ok (some g)) :
    ((dcodeCol ds.cols).isSome = true
      ↔ ∃ c ∈ ds.cols, (∀ nd ∈ ["DIST", "COD"], strContains (upperStr c) nd = true)
          ∨ (∀ nd ∈ ["DIST", "NO"], strContains (upperStr c) nd = true))
    ∧ ((dnameCol ds.cols).isSome = true
        ↔ ∃ c ∈ ds.cols, ∀ nd ∈ ["DIST", "NAME"], strContains (upperStr c) nd = true)
    ∧ (dcodeCol ds.cols = none → ∀ nd ∈ g.nodes, nd.district_id = none)
    ∧ (dnameCol ds.cols = none → ∀ nd ∈ g.nodes, nd.district = none) := by
  obtain ⟨hsel, gs, hprep, hbadj, hnodes⟩ := processState_parts ops ds code g hrun
  refine ⟨dcodeCol_isSome_iff ds.cols, find_col_isSome_iff ds.cols _, ?_, ?_⟩
  · intro hnone nd hnd
    rw [hnone] at hnodes
    obtain ⟨r, hrm, hrr⟩ := forall2_mem_right (exMapM_forall2 _ _ _ hnodes) nd hnd
    exact mkNode_district_id_none _ r nd hrr
  · intro hnone nd hnd
    rw [hnone] at hnodes
    obtain ⟨r, hrm, hrr⟩ := forall2_mem_right (exMapM_forall2 _ _ _ hnodes) nd hnd
    exact mkNode_district_none _ r nd hrr

theorem C8_schema_resolver_witness :
    ((dcodeCol wds.cols).isSome = true
      ↔ ∃ c ∈ wds.cols, (∀ nd ∈ ["DIST", "COD"], strContains (upperStr c) nd = true)
          ∨ (∀ nd ∈ ["DIST", "NO"], strContains (upperStr c) nd = true))
    ∧ ((dnameCol wds.cols).isSome = true
        ↔ ∃ c ∈ wds.cols, ∀ nd ∈ ["DIST", "NAME"], strContains (upperStr c) nd = true)
    ∧ (dcodeCol wds.cols = none → ∀ nd ∈ wgraph.nodes, nd.district_id = none)
    ∧ (dnameCol wds.cols = none → ∀ nd ∈ wgraph.nodes, nd.district = none) :=
  C8_schema_resolver mops wds 7 wgraph (by with_unfolding_all rfl)
